import Mathlib

/-! Command center dashboard: container and account table.

A shallow embedding of the data shaping done by the Lightning web components
`commandCenterContainer` and `commandCenterAccountTable`, and the properties
proved about it.

Conventions of the embedding

* JavaScript numbers are integers (`Int`); where the code can produce `NaN`
  (adding `undefined`, parsing a string without digits) the value is a
  `JsNum`, which adds `NaN` to the integers.  Fractions and infinities are
  not represented.
* Strings are Lean strings.  The comparison `<` of two strings is
  lexicographic by character (`strLt`); JavaScript compares UTF-16 code
  units, which is the same order for characters of the basic plane.  The
  collation `localeCompare` uses belongs to the platform and is a parameter
  of the functions that call it.
* Object literals used as lookup tables answer for the names they inherit
  from `Object.prototype` as well as for their own keys.
* The container's `title` and its channel subscription play no part in what
  is modelled and are left out of the state.
* `Array.prototype.sort` is the stable sort the language standard requires:
  `arraySort` below, an insertion sort that puts `a` before `b` whenever the
  comparator's answer for `(a, b)` is not positive.
* A `Map` is an association list in insertion order; `set` on a key that is
  present keeps the key's position.
-/

namespace CommandCenter

/-! ## Numbers and JSON fields -/

/-- A JavaScript number as far as this program needs one: an integer, or NaN. -/
inductive JsNum where
  | nan
  | int (n : Int)
  deriving DecidableEq, Repr

/-- Addition of numbers: NaN absorbs. -/
def JsNum.add : JsNum → JsNum → JsNum
  | .int a, .int b => .int (a + b)
  | _, _ => .nan

/-- A numeric field of a record received from the server: absent (`undefined`),
`null`, or a number. -/
inductive Field where
  | undefined
  | null
  | num (n : Int)
  deriving DecidableEq, Repr

/-- The conversion `+` applies to its operand: `undefined` becomes NaN and
`null` becomes 0. -/
def Field.toNumber : Field → JsNum
  | .undefined => .nan
  | .null => .int 0
  | .num n => .int n

/-- The expression `x || 0` on a numeric field: every falsy value (`undefined`,
`null`, `0`) gives 0. -/
def Field.orZero : Field → JsNum
  | .undefined => .int 0
  | .null => .int 0
  | .num n => .int n

/-! ## Sorting -/

/-- `Array.prototype.sort(cmp)`: stable, `a` stays before `b` unless
`cmp a b > 0`. -/
def arraySort {α : Type} (cmp : α → α → Int) (l : List α) : List α :=
  l.insertionSort (fun a b => cmp a b ≤ 0)

/-- Lexicographic order on character sequences, character by character on
the code of the character: the comparison `a < b` of two strings. -/
def strLt : List Char → List Char → Bool
  | [], [] => false
  | [], _ :: _ => true
  | _ :: _, [] => false
  | a :: as, b :: bs =>
    if a.toNat < b.toNat then true
    else if b.toNat < a.toNat then false
    else strLt as bs

/-! ## Priority colours -/

/-- What `getPriorityColor` can return: a colour string from the code, or,
when the argument names a member every object literal inherits
(`'constructor'`, `'toString'`, ...), that inherited member. -/
inductive Color where
  | hex (code : String)
  | objectMember (name : String)
  deriving DecidableEq, Repr

/-- Property names an object literal inherits from `Object.prototype`; each of
them holds a function or an object, hence a truthy value. -/
def objectPrototypeNames : List String :=
  ["constructor", "hasOwnProperty", "isPrototypeOf", "propertyIsEnumerable",
   "toLocaleString", "toString", "valueOf", "__proto__",
   "__defineGetter__", "__defineSetter__", "__lookupGetter__", "__lookupSetter__"]

/-- The lookup `table[key]` on an object literal whose own properties are
`table`: `none` is `undefined`. -/
def objectGet (table : List (String × String)) (key : String) : Option Color :=
  match table.lookup key with
  | some v => some (.hex v)
  | none => if key ∈ objectPrototypeNames then some (.objectMember key) else none

/-- Truthiness of a looked-up property. -/
def truthy : Option Color → Bool
  | none => false
  | some (.hex code) => code != ""
  | some (.objectMember _) => true

def blue500 : List (String × String) :=
  [("500", "#1e40af"), ("501", "#1d4ed8"), ("502", "#2563eb"), ("503", "#3b82f6"),
   ("510", "#60a5fa"), ("511", "#93c5fd"), ("512", "#7dd3fc"), ("513", "#38bdf8"),
   ("550", "#22d3ee"), ("553", "#67e8f9"), ("554", "#a5f3fc"), ("555", "#cffafe")]

def purple600 : List (String × String) :=
  [("600", "#7c3aed"), ("601", "#a78bfa"), ("602", "#c4b5fd"), ("603", "#ddd6fe")]

def red700 : List (String × String) :=
  [("700", "#991b1b"), ("701", "#b91c1c"), ("702", "#dc2626"), ("703", "#ef4444"),
   ("710", "#f87171"), ("711", "#fca5a5"), ("750", "#f97316"), ("751", "#fb923c"),
   ("752", "#fdba74"), ("753", "#fed7aa")]

/-- White space `parseInt` skips at the start of its argument. -/
def isStrWhiteSpace (c : Char) : Bool :=
  c.toNat ∈ [0x09, 0x0A, 0x0B, 0x0C, 0x0D, 0x20, 0xA0, 0x1680, 0x2028, 0x2029,
             0x202F, 0x205F, 0x3000, 0xFEFF] || (0x2000 ≤ c.toNat && c.toNat ≤ 0x200A)

/-- Value of a run of decimal digits. -/
def digitsValue (ds : List Char) : Nat :=
  ds.foldl (fun n c => 10 * n + (c.toNat - 48)) 0

/-- `parseInt(s, 10)`: skip white space, read a sign, read the longest run of
decimal digits; no digit gives NaN (`none`). -/
def parseInt (s : List Char) : Option Int :=
  let s1 := s.dropWhile isStrWhiteSpace
  let (sign, s2) : Int × List Char :=
    match s1 with
    | '-' :: rest => (-1, rest)
    | '+' :: rest => (1, rest)
    | _ => (1, s1)
  let ds := s2.takeWhile Char.isDigit
  if ds.isEmpty then none else some (sign * (digitsValue ds : Int))

/-- `s.startsWith(c)` for a one-character string `c`. -/
def startsWith (s : String) (c : Char) : Bool :=
  s.data.head? == some c

/-- `suffix < bound` where `suffix` may be NaN: a comparison with NaN is false. -/
def ltNum (suffix : Option Int) (bound : Int) : Bool :=
  match suffix with
  | none => false
  | some n => decide (n < bound)

/-- The statement `if (table[priority]) return table[priority];`: the value
returned, or `none` when the statement does not return. -/
def returnIfFound (table : List (String × String)) (priority : String) : Option Color :=
  if truthy (objectGet table priority) then objectGet table priority else none

/-- The fallback of `getPriorityColor`, for a code found in none of the tables. -/
def fallbackColor (priority : String) : Color :=
  if startsWith priority '5' then
    let suffix := parseInt (priority.data.drop 1)
    if ltNum suffix 10 then .hex "#2563eb"
    else if ltNum suffix 50 then .hex "#60a5fa"
    else .hex "#67e8f9"
  else if startsWith priority '6' then .hex "#a855f7"
  else if startsWith priority '7' then .hex "#ef4444"
  else .hex "#6b7280"

/-- `getPriorityColor(priority)`; `none` is a `null` or `undefined` argument. -/
def getPriorityColor (priority : Option String) : Color :=
  match priority with
  | none => .hex "#bdc3c7"
  | some priority =>
    if priority = "" then .hex "#bdc3c7"
    else
      match returnIfFound blue500 priority with
      | some color => color
      | none =>
        match returnIfFound purple600 priority with
        | some color => color
        | none =>
          match returnIfFound red700 priority with
          | some color => color
          | none => fallbackColor priority

/-! ## The cadence matrix and the chart entries -/

/-- One raw entry of a series of the cadence matrix. -/
structure CadenceItem where
  priority : String
  count : Field
  totalAssets : Field
  deriving DecidableEq, Repr

/-- The cadence matrix; a series that is `null` or absent is `none`. -/
structure CadenceMatrix where
  series500 : Option (List CadenceItem)
  series600 : Option (List CadenceItem)
  series700 : Option (List CadenceItem)
  deriving DecidableEq, Repr

/-- A value stored in `priorityMap`. -/
structure SeriesAggregate where
  count : JsNum
  assets : JsNum
  priority : String
  series : String
  deriving DecidableEq, Repr

/-- One element of the list `chartData` returns. -/
structure ChartEntry where
  label : String
  value : JsNum
  assets : JsNum
  color : Color
  series : String
  deriving DecidableEq, Repr

/-- A `Map` from priority code to aggregate, entries in insertion order. -/
abbrev PriorityMap := List (String × SeriesAggregate)

/-- `map.get(key)`. -/
def mapGet (map : PriorityMap) (key : String) : Option SeriesAggregate :=
  match map with
  | [] => none
  | (k, v) :: rest => if k = key then some v else mapGet rest key

/-- `map.set(key, value)`: a key that is present keeps its place. -/
def mapSet (map : PriorityMap) (key : String) (value : SeriesAggregate) : PriorityMap :=
  match map with
  | [] => [(key, value)]
  | (k, v) :: rest => if k = key then (key, value) :: rest else (k, v) :: mapSet rest key value

/-- The body of the `forEach` callback of `processSeriesData`. -/
def processItem (seriesTag : String) (priorityMap : PriorityMap) (item : CadenceItem) :
    PriorityMap :=
  let existing : JsNum × JsNum :=
    match mapGet priorityMap item.priority with
    | some e => (e.count, e.assets)
    | none => (.int 0, .int 0)
  mapSet priorityMap item.priority
    { count := existing.1.add item.count.toNumber
      assets := existing.2.add item.totalAssets.orZero
      priority := item.priority
      series := seriesTag }

/-- The local function `processSeriesData(seriesData, seriesPrefix)` of
`chartData`, acting on `priorityMap`. -/
def processSeriesData (seriesData : Option (List CadenceItem)) (seriesTag : String)
    (priorityMap : PriorityMap) : PriorityMap :=
  match seriesData with
  | none => priorityMap
  | some items => items.foldl (processItem seriesTag) priorityMap

/-- The map `chartData` has built when the three `if` statements are done. -/
def buildPriorityMap (matrix : CadenceMatrix) (selectedSeries : List String) : PriorityMap :=
  let showAllSeries := selectedSeries.length == 0
  let m0 : PriorityMap := []
  let m1 := if showAllSeries || selectedSeries.contains "500"
    then processSeriesData matrix.series500 "500" m0 else m0
  let m2 := if showAllSeries || selectedSeries.contains "600"
    then processSeriesData matrix.series600 "600" m1 else m1
  let m3 := if showAllSeries || selectedSeries.contains "700"
    then processSeriesData matrix.series700 "700" m2 else m2
  m3

/-- The entry `priorityMap.forEach` pushes for one key. -/
def toChartEntry (kv : String × SeriesAggregate) : ChartEntry :=
  { label := kv.1
    value := kv.2.count
    assets := kv.2.assets
    color := getPriorityColor (some kv.1)
    series := kv.2.series }

/-- The getter `chartData` as a function of the two things it reads,
`this.cadenceMatrixData` and `this.filterState.prioritySeries`, given the
platform's `localeCompare`. -/
def aggregate (localeCompare : String → String → Int)
    (cadenceMatrixData : Option CadenceMatrix) (prioritySeries : List String) :
    List ChartEntry :=
  match cadenceMatrixData with
  | none => []
  | some matrix =>
    let result := (buildPriorityMap matrix prioritySeries).map toChartEntry
    arraySort (fun a b => localeCompare a.label b.label) result

/-! ## The container's state -/

/-- The record `filterState`. -/
structure FilterState where
  targetStatuses : List String
  prioritySeries : List String
  engagementStatus : Option String
  searchTerm : String
  top525 : Bool
  deriving DecidableEq, Repr

/-- One element of `targetUniverse`. -/
structure StatusOption where
  status : String
  count : Field
  color : Option String
  deriving DecidableEq, Repr

/-- One account of `filteredAccounts`. -/
structure AccountRecord where
  id : String
  name : Option String
  annualRevenue : Field
  status : Option String
  priority : Option String
  url : Option String
  deriving DecidableEq, Repr

/-- The record `kpiSummary`. -/
structure KpiSummary where
  totalAccounts : Field
  totalAssets : Field
  deriving DecidableEq, Repr

/-- What the Apex method `getDashboardData` resolves to. -/
structure DashboardData where
  targetUniverse : Option (List StatusOption)
  cadenceMatrix : Option CadenceMatrix
  kpiSummary : Option KpiSummary
  filteredAccounts : Option (List AccountRecord)
  deriving DecidableEq, Repr

/-- The tracked fields of `CommandCenterContainer`. -/
structure Container where
  filterState : FilterState
  dashboardData : Option DashboardData
  isLoading : Bool
  error : Option String
  chartType : String
  selectedPriorityCode : Option String
  chartDisplayMode : String
  allStatusOptions : List StatusOption
  deriving DecidableEq, Repr

/-- The object literal assigned to `filterState` by the field initialiser and
by the `reset` case. -/
def emptyFilterState : FilterState :=
  { targetStatuses := []
    prioritySeries := []
    engagementStatus := none
    searchTerm := ""
    top525 := false }

/-- The component as its field initialisers leave it. -/
def Container.initial : Container :=
  { filterState := emptyFilterState
    dashboardData := none
    isLoading := true
    error := none
    chartType := "vertical"
    selectedPriorityCode := none
    chartDisplayMode := "count"
    allStatusOptions := [] }

/-- The getter `cadenceMatrixData`. -/
def cadenceMatrixData (c : Container) : Option CadenceMatrix :=
  match c.dashboardData with
  | none => none
  | some d => d.cadenceMatrix

/-- The getter `chartData`. -/
def chartData (localeCompare : String → String → Int) (c : Container) : List ChartEntry :=
  aggregate localeCompare (cadenceMatrixData c) c.filterState.prioritySeries

/-! ## Loading the dashboard data -/

/-- The value a failed call of the Apex method rejects with: `body` and its
`message` may each be missing. -/
structure ApexError where
  body : Option (Option String)
  deriving DecidableEq, Repr

/-- How the awaited call `getDashboardData(...)` settles. -/
inductive FetchOutcome where
  | resolved (result : Option DashboardData)
  | rejected (err : ApexError)
  deriving DecidableEq, Repr

/-- The expression `err.body?.message || 'Failed to load dashboard data'`. -/
def errorMessage (err : ApexError) : String :=
  match err.body with
  | some (some message) => if message = "" then "Failed to load dashboard data" else message
  | _ => "Failed to load dashboard data"

/-- The part of `loadDashboardData` that runs before the `await`: the new
state and the `filters` argument of the call to `getDashboardData`. -/
def loadDashboardDataStart (c : Container) : Container × FilterState :=
  let c := { c with isLoading := true }
  let c := { c with error := none }
  (c, c.filterState)

/-- The part of `loadDashboardData` that runs once the call has settled: the
rest of the `try` block or the `catch` block, then the `finally` block. -/
def loadDashboardDataFinish (outcome : FetchOutcome) (c : Container) : Container :=
  let c :=
    match outcome with
    | .resolved result =>
      let c := { c with dashboardData := result }
      let hasNoStatusFilter := c.filterState.targetStatuses.length == 0
      let targetUniverse : List StatusOption :=
        match result with
        | some d => d.targetUniverse.getD []
        | none => []
      if hasNoStatusFilter && decide (targetUniverse.length > 0) then
        { c with allStatusOptions := targetUniverse }
      else c
    | .rejected err => { c with error := some (errorMessage err) }
  { c with isLoading := false }

/-- A whole run of `loadDashboardData` with nothing in between, against a
server `getDashboardData`. -/
def loadDashboardData (getDashboardData : FilterState → FetchOutcome) (c : Container) :
    Container :=
  let started := loadDashboardDataStart c
  loadDashboardDataFinish (getDashboardData started.2) started.1

/-! ## Filter messages -/

/-- A `filterValue` of no particular shape. -/
inductive FilterValue where
  | null
  | text (s : String)
  | list (items : List String)
  deriving DecidableEq, Repr

/-- The `filterType` strings the `switch` of `handleFilterMessage` names. -/
def knownFilterTypes : List String :=
  ["prioritySeries", "targetStatuses", "engagementStatus", "chartType", "priorityCode", "reset"]

/-- A message of the filter channel, `{ filterType, filterValue }`, with the
`filterValue` each `filterType` carries.  The last constructor is a message
whose `filterType` is none of the six. -/
inductive FilterMessage where
  | prioritySeries (filterValue : List String)
  | targetStatuses (filterValue : List String)
  | engagementStatus (filterValue : Option String)
  | chartType (filterValue : String)
  | priorityCode (filterValue : Option String)
  | reset (filterValue : FilterValue)
  | other (filterType : String) (filterValue : FilterValue)
      (unknown : filterType ∉ knownFilterTypes)

/-- The `filterType` of a message. -/
def FilterMessage.filterType : FilterMessage → String
  | .prioritySeries _ => "prioritySeries"
  | .targetStatuses _ => "targetStatuses"
  | .engagementStatus _ => "engagementStatus"
  | .chartType _ => "chartType"
  | .priorityCode _ => "priorityCode"
  | .reset _ => "reset"
  | .other filterType _ _ => filterType

/-- The lookup `seriesMap[codePrefix]` in `{ '5': '500', '6': '600', '7': '700' }`,
where `codePrefix` is `charAt(0)` of the selected code. -/
def seriesMap (codePrefix : Option Char) : Option String :=
  match codePrefix with
  | some '5' => some "500"
  | some '6' => some "600"
  | some '7' => some "700"
  | _ => none

/-- `filterValue.includes(x)` where `x` may be `undefined`, which no element
of an array of strings equals. -/
def includes (filterValue : List String) (x : Option String) : Bool :=
  match x with
  | some s => filterValue.contains s
  | none => false

/-- Truthiness of `selectedPriorityCode`: `null` and the empty string are falsy. -/
def codeTruthy (code : Option String) : Bool :=
  match code with
  | some s => s != ""
  | none => false

/-- What a call of `handleFilterMessage` leaves behind: the state when the
handler returns, and the `filters` of the fetch it has started, if any. -/
structure Handled where
  state : Container
  fetch : Option FilterState
  deriving DecidableEq, Repr

/-- The statement after the `switch`: `this.loadDashboardData()`, not awaited. -/
def thenLoad (c : Container) : Handled :=
  let started := loadDashboardDataStart c
  { state := started.1, fetch := some started.2 }

/-- `handleFilterMessage(message)`. -/
def handleFilterMessage (message : FilterMessage) (c : Container) : Handled :=
  match message with
  | .prioritySeries filterValue =>
    let c := { c with filterState := { c.filterState with prioritySeries := filterValue } }
    let c :=
      if codeTruthy c.selectedPriorityCode && decide (filterValue.length > 0) then
        let codePrefix := (c.selectedPriorityCode.getD "").data.head?
        if !(includes filterValue (seriesMap codePrefix)) then
          { c with selectedPriorityCode := none }
        else c
      else c
    thenLoad c
  | .targetStatuses filterValue =>
    thenLoad { c with filterState := { c.filterState with targetStatuses := filterValue } }
  | .engagementStatus filterValue =>
    thenLoad { c with filterState := { c.filterState with engagementStatus := filterValue } }
  | .chartType filterValue =>
    { state := { c with chartType := filterValue }, fetch := none }
  | .priorityCode filterValue =>
    { state := { c with selectedPriorityCode := filterValue }, fetch := none }
  | .reset _ =>
    let c := { c with filterState := emptyFilterState }
    let c := { c with selectedPriorityCode := none }
    thenLoad c
  | .other _ _ _ =>
    { state := c, fetch := none }

/-! ## The account table -/

/-- A row of the account table. -/
structure Row where
  id : String
  name : Option String
  annualRevenue : Field
  status : Option String
  priority : Option String
  url : Option String
  deriving DecidableEq, Repr

/-- The value `row[field]` for a field other than `annualRevenue`: a string,
or `none` when the value is `null` or the row has no such field. -/
def Row.textField (row : Row) (field : String) : Option String :=
  if field = "id" then some row.id
  else if field = "name" then row.name
  else if field = "status" then row.status
  else if field = "priority" then row.priority
  else if field = "url" then row.url
  else none

/-- The number the subtraction of `sortData` sees for a revenue: a `null` or
absent value has been replaced by `''`, which the subtraction converts to 0. -/
def revenueNumber (annualRevenue : Field) : Int :=
  match annualRevenue with
  | .num n => n
  | _ => 0

/-- `s.toLowerCase()` on the letters A to Z. -/
def toLowerCase (s : String) : List Char :=
  s.data.map Char.toLower

/-- The comparator `sortData` passes to `sort`. -/
def compareRows (field : String) (direction : Int) (a b : Row) : Int :=
  if field = "annualRevenue" then
    (revenueNumber a.annualRevenue - revenueNumber b.annualRevenue) * direction
  else
    let valueA := toLowerCase ((a.textField field).getD "")
    let valueB := toLowerCase ((b.textField field).getD "")
    if strLt valueA valueB then -1 * direction
    else if strLt valueB valueA then 1 * direction
    else 0

/-- `sortData(data)` as a function of the two fields it reads, `sortField` and
`sortDirection`, and of the rows of `data`. -/
def sortData (sortField sortDirection : String) (data : List Row) : List Row :=
  let direction : Int := if sortDirection = "asc" then 1 else -1
  arraySort (compareRows sortField direction) data

/-- The arrays of rows in memory; a reference to an array is its index. -/
abbrev Store := List (List Row)

/-- The array a reference points to. -/
def Store.read (store : Store) (ref : Nat) : List Row :=
  store.getD ref []

/-- The spread `[...data]`: a fresh array with the elements of `data`. -/
def Store.spread (store : Store) (data : Nat) : Store × Nat :=
  (store ++ [store.read data], store.length)

/-- The method `sort`: it reorders the array it is called on, in place. -/
def Store.sortInPlace (cmp : Row → Row → Int) (store : Store) (ref : Nat) : Store :=
  store.set ref (arraySort cmp (store.read ref))

/-- `sortData(data)` on references: the memory after the call and the
reference returned. -/
def sortDataIn (sortField sortDirection : String) (store : Store) (data : Nat) : Store × Nat :=
  let direction : Int := if sortDirection = "asc" then 1 else -1
  let copied := store.spread data
  (Store.sortInPlace (compareRows sortField direction) copied.1 copied.2, copied.2)

/-! ## Vocabulary of the statements about the reducer and the table -/

/-- A container in which the selected priority code is the empty string. -/
def emptyCodeContainer : Container :=
  { Container.initial with selectedPriorityCode := some "" }

/-- The series a priority code belongs to, by its leading character:
`'5'` gives `'500'`, `'6'` gives `'600'`, `'7'` gives `'700'`; any other code
(and no code) has none. -/
def seriesOfCode (code : Option String) : Option String :=
  match code with
  | none => none
  | some s =>
    match s.data with
    | '5' :: _ => some "500"
    | '6' :: _ => some "600"
    | '7' :: _ => some "700"
    | _ => none

/-- The annual revenue of a row as a number, a missing value counted as 0. -/
def Row.revenue (row : Row) : Int :=
  match row.annualRevenue with
  | .num n => n
  | .null => 0
  | .undefined => 0

/-- The first row of the two-row example. -/
def acmeRow : Row :=
  { id := "1", name := some "Acme", annualRevenue := .num 500000,
    status := some "Customer", priority := some "501", url := none }

/-- The second row of the two-row example. -/
def zetaRow : Row :=
  { id := "2", name := some "Zeta", annualRevenue := .num 200000,
    status := some "Target A", priority := some "500", url := none }

/-! ## Vocabulary for the chart aggregation -/

/-- The series of the matrix a selection includes, each with its tag, in the
order in which they are processed: a series is included when the selection is
empty or lists its tag.  A series that is `null` has no entries. -/
def includedSeries (matrix : CadenceMatrix) (selection : List String) :
    List (String × List CadenceItem) :=
  [("500", matrix.series500.getD []), ("600", matrix.series600.getD []),
   ("700", matrix.series700.getD [])].filter
    (fun s => decide (selection = [] ∨ s.1 ∈ selection))

/-- The entries of one series, each paired with the tag of the series. -/
def tagged (s : String × List CadenceItem) : List (String × CadenceItem) :=
  s.2.map (fun item => (s.1, item))

/-- The raw entries of the included series, in processing order. -/
def includedItems (matrix : CadenceMatrix) (selection : List String) :
    List (String × CadenceItem) :=
  (includedSeries matrix selection).flatMap tagged

/-- The raw entries with priority `p` in the included series. -/
def entriesOf (matrix : CadenceMatrix) (selection : List String) (p : String) :
    List (String × CadenceItem) :=
  (includedItems matrix selection).filter (fun ti => decide (ti.2.priority = p))

/-- The number in a numeric field, a missing or `null` one counted as 0. -/
def Field.value : Field → Int
  | .num n => n
  | .null => 0
  | .undefined => 0

/-- Whether a numeric field holds a number. -/
def Field.isNumber : Field → Bool
  | .num _ => true
  | .null => false
  | .undefined => false

/-- One step of `processSeriesData` on a tagged entry. -/
def step (priorityMap : PriorityMap) (ti : String × CadenceItem) : PriorityMap :=
  processItem ti.1 priorityMap ti.2

/-- The count held by an aggregate, 0 when there is none yet. -/
def countOf (acc : Option SeriesAggregate) : JsNum :=
  match acc with
  | some e => e.count
  | none => .int 0

/-- The assets held by an aggregate, 0 when there is none yet. -/
def assetsOf (acc : Option SeriesAggregate) : JsNum :=
  match acc with
  | some e => e.assets
  | none => .int 0

/-- What processing one tagged entry does to the aggregate stored under `key`. -/
def accumulate (key : String) (acc : Option SeriesAggregate) (ti : String × CadenceItem) :
    Option SeriesAggregate :=
  if ti.2.priority = key then
    some { count := (countOf acc).add ti.2.count.toNumber
           assets := (assetsOf acc).add ti.2.totalAssets.orZero
           priority := key
           series := ti.1 }
  else acc

/-- A decimal digit, by its character code. -/
def isDecimalDigit (c : Char) : Bool :=
  decide (48 ≤ c.toNat) && decide (c.toNat ≤ 57)

/-- A string of decimal digits only. -/
def isDigitString (code : String) : Bool :=
  code.data.all isDecimalDigit

/-- The collation that orders strings lexicographically: negative, zero or
positive as `a` is before, equal to or after `b`. -/
def lexCompare (a b : String) : Int :=
  if strLt a.data b.data then -1 else if strLt b.data a.data then 1 else 0

/-- A priority code of exactly three decimal digits. -/
def isThreeDigitCode (code : String) : Bool :=
  code.data.length == 3 && code.data.all isDecimalDigit

/-- The number a string of decimal digits denotes. -/
def codeNumber (code : String) : Nat :=
  digitsValue code.data

/-- A matrix with a repeated code, a code in two series and a missing
`totalAssets`. -/
def sampleMatrix : CadenceMatrix :=
  { series500 := some [⟨"510", .num 2, .num 7⟩, ⟨"500", .num 1, .undefined⟩,
      ⟨"510", .num 3, .null⟩]
    series600 := some [⟨"601", .num 4, .num 9⟩]
    series700 := some [⟨"700", .num 6, .num 1⟩, ⟨"510", .num 10, .num 100⟩] }

/-- A matrix in which no code is in both series 500 and series 600. -/
def disjointMatrix : CadenceMatrix :=
  { series500 := some [⟨"510", .num 2, .num 7⟩, ⟨"500", .num 1, .undefined⟩,
      ⟨"510", .num 3, .null⟩]
    series600 := some [⟨"601", .num 4, .num 9⟩, ⟨"600", .undefined, .num 1⟩]
    series700 := some [⟨"510", .num 10, .num 100⟩] }

/-! ## Revenue per status and the status options -/

/-- `calculateRevenueForStatus(status)`. -/
def calculateRevenueForStatus (c : Container) (status : String) : JsNum :=
  match c.dashboardData with
  | none => .int 0
  | some d =>
    match d.filteredAccounts with
    | none => .int 0
    | some filteredAccounts =>
      (filteredAccounts.filter (fun acc => acc.status == some status)).foldl
        (fun sum acc => sum.add acc.annualRevenue.orZero) (.int 0)

/-- The getter `targetUniverseData`. -/
def targetUniverseData (c : Container) : List StatusOption :=
  if c.allStatusOptions.length > 0 then c.allStatusOptions
  else
    match c.dashboardData with
    | some d => d.targetUniverse.getD []
    | none => []

/-- The account list that has been loaded; there is none before the first
load, and none when the server sent no list. -/
def loadedAccounts (c : Container) : Option (List AccountRecord) :=
  match c.dashboardData with
  | none => none
  | some d => d.filteredAccounts

/-- The `targetUniverse` of a fetched result, empty when there is none. -/
def fetchedTargetUniverse (result : Option DashboardData) : List StatusOption :=
  match result with
  | some d => d.targetUniverse.getD []
  | none => []

/-! ## Vocabulary of the statements about string fields -/

/-- The string `sortData` compares for a field other than `annualRevenue`:
the value of the field in lower case, the empty string for a `null` value. -/
def Row.lowerValue (row : Row) (field : String) : List Char :=
  toLowerCase ((row.textField field).getD "")

/-- Two characters that are equal or are the upper-case and the lower-case
form of one letter A to Z. -/
def sameLetter (c d : Char) : Bool :=
  c == d || (decide (65 ≤ c.toNat ∧ c.toNat ≤ 90) && d == c.toLower) ||
    (decide (65 ≤ d.toNat ∧ d.toNat ≤ 90) && c == d.toLower)

/-- Two strings that differ only in letter case. -/
def differOnlyInCase (s t : String) : Prop :=
  List.Forall₂ (fun c d => sameLetter c d = true) s.data t.data

/-- Whether the value of a field of a row is `null` or absent. -/
def Row.isNullAt (row : Row) (field : String) : Bool :=
  if field = "annualRevenue" then !row.annualRevenue.isNumber
  else (row.textField field).isNone

/-- Whether the value of a field of a row is present and, for a string, not
the empty string. -/
def Row.isPresentAt (row : Row) (field : String) : Bool :=
  if field = "annualRevenue" then row.annualRevenue.isNumber
  else
    match row.textField field with
    | some s => s != ""
    | none => false

/-- A row with a negative revenue. -/
def lossRow : Row :=
  { id := "3", name := some "Loss", annualRevenue := .num (-5),
    status := some "Dead", priority := some "555", url := none }

/-- A row with revenue 0. -/
def zeroRow : Row :=
  { id := "4", name := some "Nil", annualRevenue := .num 0,
    status := some "Dead", priority := some "555", url := none }

/-- A row without revenue and without name. -/
def blankRow : Row :=
  { id := "5", name := none, annualRevenue := .null,
    status := some "Target B", priority := some "510", url := none }

/-- The first row of the example with its name in upper case. -/
def acmeUpperRow : Row :=
  { id := "6", name := some "ACME", annualRevenue := .num 7,
    status := some "Customer", priority := some "501", url := none }

/-! ## Vocabulary of the statements about colours -/

/-- The three exact-match tables together. -/
def exactTables : List (String × String) :=
  blue500 ++ purple600 ++ red700

/-- The exact-match lookup with the tables consulted in a given order: the
value of the first `if (table[priority]) return table[priority];` that
returns. -/
def consultInOrder (tables : List (List (String × String))) (priority : String) :
    Option Color :=
  tables.findSome? (fun table => returnIfFound table priority)

/-- The six orders in which the three tables can be consulted. -/
def tableOrders : List (List (List (String × String))) :=
  [[blue500, purple600, red700], [blue500, red700, purple600],
   [purple600, blue500, red700], [purple600, red700, blue500],
   [red700, blue500, purple600], [red700, purple600, blue500]]

/-- The code made of the character `5` and two more characters. -/
def fiveCode (d1 d2 : Char) : String :=
  String.mk ['5', d1, d2]

/-- A matrix whose only entry has no `count`. -/
def missingCountMatrix : CadenceMatrix :=
  { series500 := some [⟨"500", .undefined, .num 5⟩]
    series600 := none
    series700 := none }

/-- A container that has loaded two customers and one other account. -/
def loadedContainer : Container :=
  { Container.initial with
    isLoading := false
    dashboardData := some
      { targetUniverse := some [⟨"Customer", .num 2, none⟩, ⟨"Dead", .num 1, none⟩]
        cadenceMatrix := none
        kpiSummary := none
        filteredAccounts := some
          [⟨"1", some "Acme", .num 500000, some "Customer", some "501", none⟩,
           ⟨"2", some "Zeta", .null, some "Customer", some "500", none⟩,
           ⟨"3", some "Loss", .num 7, some "Dead", some "555", none⟩] } }

/-- The loaded container with a status filter set and the full option list
cached. -/
def filteredContainer : Container :=
  { loadedContainer with
    filterState := { emptyFilterState with targetStatuses := ["Customer"] }
    allStatusOptions := [⟨"Customer", .num 2, none⟩, ⟨"Dead", .num 1, none⟩] }

/-- A server that answers every request with the customers only. -/
def customersOnlyServer (_filters : FilterState) : FetchOutcome :=
  .resolved (some
    { targetUniverse := some [⟨"Customer", .num 2, none⟩]
      cadenceMatrix := none
      kpiSummary := none
      filteredAccounts := some [] })

/-! ## The status summary and the status table -/

/-- One element of the list `statusSummaryData` returns, the `statusData` of
the status table. -/
structure StatusSummary where
  status : String
  count : Field
  color : Option String
  revenue : JsNum
  deriving DecidableEq, Repr

/-- The getter `statusSummaryData`. -/
def statusSummaryData (c : Container) : List StatusSummary :=
  if (targetUniverseData c).length == 0 then []
  else
    (targetUniverseData c).map (fun item =>
      { status := item.status
        count := item.count
        color := item.color
        revenue := calculateRevenueForStatus c item.status })

/-- The expression `x || 0` on a number: NaN and 0 give 0. -/
def JsNum.orZero : JsNum → JsNum
  | .nan => .int 0
  | .int n => .int n

/-- The constant `total` of the getter `totalRevenue` of the status table. -/
def revenueTotal (statusData : List StatusSummary) : JsNum :=
  statusData.foldl (fun sum item => sum.add item.revenue.orZero) (.int 0)

/-- `formatCurrency(num)` of the status table, given the formatter of the
platform; `none` is a `null` or `undefined` argument. -/
def formatCurrency (intlFormat : JsNum → String) (num : Option JsNum) : String :=
  match num with
  | none => "$0"
  | some (.int 0) => "$0"
  | some n => intlFormat n

/-- The getter `totalRevenue` of the status table. -/
def totalRevenue (intlFormat : JsNum → String) (statusData : Option (List StatusSummary)) :
    String :=
  match statusData with
  | none => "$0"
  | some items => formatCurrency intlFormat (some (revenueTotal items))

/-! ## The sort state of the account table -/

/-- The fields `sortField` and `sortDirection` of the account table. -/
structure SortState where
  sortField : String
  sortDirection : String
  deriving DecidableEq, Repr

/-- The sort state as the field initialisers leave it. -/
def SortState.initial : SortState :=
  { sortField := "name", sortDirection := "asc" }

/-- `handleSort(event)`, where `field` is `event.currentTarget.dataset.field`. -/
def handleSort (field : String) (s : SortState) : SortState :=
  if s.sortField = field then
    { s with sortDirection := if s.sortDirection = "asc" then "desc" else "asc" }
  else
    { sortField := field, sortDirection := "asc" }

/-- The sort state after a sequence of clicks on column headers. -/
def afterClicks (fields : List String) : SortState :=
  fields.foldl (fun s field => handleSort field s) SortState.initial

/-! ## The filter reducer -/

theorem seriesMap_head (s : String) : seriesMap s.data.head? = seriesOfCode (some s) := by
  unfold seriesMap seriesOfCode
  dsimp only
  generalize s.data = l
  rcases l with _ | ⟨a, rest⟩
  · rfl
  · by_cases h5 : a = '5'
    · subst h5; rfl
    · by_cases h6 : a = '6'
      · subst h6; rfl
      · by_cases h7 : a = '7'
        · subst h7; rfl
        · simp [h5, h6, h7]

/-- The selected code after a `prioritySeries` message, as one expression. -/
theorem selected_after_prioritySeries (c : Container) (S : List String) :
    (handleFilterMessage (.prioritySeries S) c).state.selectedPriorityCode =
      if codeTruthy c.selectedPriorityCode && decide (S.length > 0) &&
          !(includes S (seriesOfCode c.selectedPriorityCode))
      then none else c.selectedPriorityCode := by
  obtain ⟨fs, dd, il, er, ct, sel, cdm, aso⟩ := c
  cases sel with
  | none => simp [handleFilterMessage, thenLoad, loadDashboardDataStart, codeTruthy]
  | some code =>
    have hser := seriesMap_head code
    simp only [handleFilterMessage, thenLoad, loadDashboardDataStart, Option.getD_some, hser]
    by_cases h1 : (codeTruthy (some code) && decide (S.length > 0)) = true
    · by_cases h2 : includes S (seriesOfCode (some code)) = true
      · simp [h1, h2]
      · simp [h1, h2]
    · simp [h1]

/-- C5: a `reset` message, whatever its `filterValue` and whatever the prior
state, leaves `filterState` equal to the zero value and `selectedPriorityCode`
null. -/
theorem handleFilterMessage_reset (c : Container) (filterValue : FilterValue) :
    (handleFilterMessage (.reset filterValue) c).state.filterState =
        { targetStatuses := [], prioritySeries := [], engagementStatus := none,
          searchTerm := "", top525 := false } ∧
      (handleFilterMessage (.reset filterValue) c).state.selectedPriorityCode = none := by
  constructor <;> rfl

/-- C6, as the claim states it, fails when the selected code is the empty
string: the series of `''` is not in `['500']`, yet the selection is not
cleared. -/
theorem handleFilterMessage_prioritySeries_empty_code :
    (handleFilterMessage (.prioritySeries ["500"]) emptyCodeContainer).state.selectedPriorityCode
        = some "" ∧
      ¬ ((handleFilterMessage (.prioritySeries ["500"])
            emptyCodeContainer).state.selectedPriorityCode = none ↔
          (emptyCodeContainer.selectedPriorityCode = none ∨
            (["500"] ≠ [] ∧
              ∀ t, seriesOfCode emptyCodeContainer.selectedPriorityCode = some t →
                t ∉ ["500"]))) := by
  refine ⟨by decide, ?_⟩
  intro h
  have h1 : (handleFilterMessage (.prioritySeries ["500"])
      emptyCodeContainer).state.selectedPriorityCode = none :=
    h.mpr (Or.inr ⟨by decide, by intro t ht; simp [seriesOfCode, emptyCodeContainer] at ht⟩)
  revert h1
  decide

/-- C6, amended: after a `prioritySeries` message with value `S` the selected
code is null exactly when it was null before, or it was a non-empty string,
`S` is non-empty and the series of the code is not in `S`; in every other case
it is unchanged.  An empty `S` never changes it, and neither does an empty
selected code. -/
theorem handleFilterMessage_prioritySeries_selection (c : Container) (S : List String) :
    ((handleFilterMessage (.prioritySeries S) c).state.selectedPriorityCode = none ↔
        (c.selectedPriorityCode = none ∨
          (c.selectedPriorityCode ≠ some "" ∧ S ≠ [] ∧
            ∀ t, seriesOfCode c.selectedPriorityCode = some t → t ∉ S))) ∧
      ((handleFilterMessage (.prioritySeries S) c).state.selectedPriorityCode = none ∨
        (handleFilterMessage (.prioritySeries S) c).state.selectedPriorityCode
          = c.selectedPriorityCode) ∧
      (S = [] ∨ c.selectedPriorityCode = some "" →
        (handleFilterMessage (.prioritySeries S) c).state.selectedPriorityCode
          = c.selectedPriorityCode) := by
  rw [selected_after_prioritySeries]
  cases hsel : c.selectedPriorityCode with
  | none => simp [codeTruthy]
  | some code =>
    have hinc : includes S (seriesOfCode (some code)) = true ↔
        ¬ ∀ t, seriesOfCode (some code) = some t → t ∉ S := by
      cases seriesOfCode (some code) with
      | none => simp [includes]
      | some t => simp [includes]
    by_cases hcode : code = ""
    · subst hcode
      simp [codeTruthy]
    · cases S with
      | nil => simp [codeTruthy, hcode]
      | cons s0 S' =>
        by_cases h2 : includes (s0 :: S') (seriesOfCode (some code)) = true
        · have h3 := hinc.mp h2
          simp only [codeTruthy, h2]
          simp only [List.mem_cons, not_or] at h3
          simp [hcode, h3]
        · have h3 : ∀ t, seriesOfCode (some code) = some t → t ∉ s0 :: S' := by
            by_contra hn
            exact h2 (hinc.mpr hn)
          simp only [Bool.not_eq_true] at h2
          simp [codeTruthy, hcode, h2]
          exact fun t ht => by simpa using h3 t ht

/-- C7: a message that is not `reset` changes at most the slot its
`filterType` names.  `prioritySeries`, `targetStatuses` and `engagementStatus`
set that field of `filterState` to `filterValue` and keep the other four;
`chartType` and `priorityCode` keep `filterState` and set only `chartType`,
respectively `selectedPriorityCode`; a message of any other type returns the
state it was given (the handler is a total function: nothing is raised). -/
theorem handleFilterMessage_frame (c : Container) :
    (∀ v, (handleFilterMessage (.prioritySeries v) c).state.filterState.prioritySeries = v ∧
        (handleFilterMessage (.prioritySeries v) c).state.filterState.targetStatuses
          = c.filterState.targetStatuses ∧
        (handleFilterMessage (.prioritySeries v) c).state.filterState.engagementStatus
          = c.filterState.engagementStatus ∧
        (handleFilterMessage (.prioritySeries v) c).state.filterState.searchTerm
          = c.filterState.searchTerm ∧
        (handleFilterMessage (.prioritySeries v) c).state.filterState.top525
          = c.filterState.top525 ∧
        (handleFilterMessage (.prioritySeries v) c).state.chartType = c.chartType) ∧
    (∀ v, (handleFilterMessage (.targetStatuses v) c).state.filterState.targetStatuses = v ∧
        (handleFilterMessage (.targetStatuses v) c).state.filterState.prioritySeries
          = c.filterState.prioritySeries ∧
        (handleFilterMessage (.targetStatuses v) c).state.filterState.engagementStatus
          = c.filterState.engagementStatus ∧
        (handleFilterMessage (.targetStatuses v) c).state.filterState.searchTerm
          = c.filterState.searchTerm ∧
        (handleFilterMessage (.targetStatuses v) c).state.filterState.top525
          = c.filterState.top525 ∧
        (handleFilterMessage (.targetStatuses v) c).state.chartType = c.chartType ∧
        (handleFilterMessage (.targetStatuses v) c).state.selectedPriorityCode
          = c.selectedPriorityCode) ∧
    (∀ v, (handleFilterMessage (.engagementStatus v) c).state.filterState.engagementStatus = v ∧
        (handleFilterMessage (.engagementStatus v) c).state.filterState.targetStatuses
          = c.filterState.targetStatuses ∧
        (handleFilterMessage (.engagementStatus v) c).state.filterState.prioritySeries
          = c.filterState.prioritySeries ∧
        (handleFilterMessage (.engagementStatus v) c).state.filterState.searchTerm
          = c.filterState.searchTerm ∧
        (handleFilterMessage (.engagementStatus v) c).state.filterState.top525
          = c.filterState.top525 ∧
        (handleFilterMessage (.engagementStatus v) c).state.chartType = c.chartType ∧
        (handleFilterMessage (.engagementStatus v) c).state.selectedPriorityCode
          = c.selectedPriorityCode) ∧
    (∀ v, (handleFilterMessage (.chartType v) c).state = { c with chartType := v }) ∧
    (∀ v, (handleFilterMessage (.priorityCode v) c).state
          = { c with selectedPriorityCode := v }) ∧
    (∀ t v h, (handleFilterMessage (.other t v h) c).state = c) := by
  refine ⟨fun v => ⟨?_, ?_, ?_, ?_, ?_, ?_⟩, fun v => ⟨rfl, rfl, rfl, rfl, rfl, rfl, rfl⟩,
    fun v => ⟨rfl, rfl, rfl, rfl, rfl, rfl, rfl⟩, fun v => rfl, fun v => rfl,
    fun t v h => rfl⟩ <;>
  · simp only [handleFilterMessage, thenLoad, loadDashboardDataStart]
    split <;> [split; skip] <;> rfl

/-- C8: `handleFilterMessage` starts a fetch exactly for the filter types
`prioritySeries`, `targetStatuses`, `engagementStatus` and `reset`, and the
`filters` it passes are the `filterState` the handler has just written; for
`chartType`, `priorityCode` and every unknown type no fetch is started. -/
theorem handleFilterMessage_fetch (message : FilterMessage) (c : Container) :
    ((handleFilterMessage message c).fetch.isSome = true ↔
        message.filterType ∈ ["prioritySeries", "targetStatuses", "engagementStatus", "reset"]) ∧
      ((handleFilterMessage message c).fetch.isSome = true →
        (handleFilterMessage message c).fetch
          = some (handleFilterMessage message c).state.filterState) ∧
      (message.filterType ∉ ["prioritySeries", "targetStatuses", "engagementStatus", "reset"] →
        (handleFilterMessage message c).fetch = none) := by
  cases message with
  | prioritySeries v =>
    simp [handleFilterMessage, thenLoad, loadDashboardDataStart, FilterMessage.filterType]
  | targetStatuses v =>
    simp [handleFilterMessage, thenLoad, loadDashboardDataStart, FilterMessage.filterType]
  | engagementStatus v =>
    simp [handleFilterMessage, thenLoad, loadDashboardDataStart, FilterMessage.filterType]
  | chartType v => simp [handleFilterMessage, FilterMessage.filterType]
  | priorityCode v => simp [handleFilterMessage, FilterMessage.filterType]
  | reset v =>
    simp [handleFilterMessage, thenLoad, loadDashboardDataStart, FilterMessage.filterType]
  | other t v h =>
    have h4 : t ∉ ["prioritySeries", "targetStatuses", "engagementStatus", "reset"] := by
      intro hm
      apply h
      simp only [knownFilterTypes, List.mem_cons, List.mem_singleton, List.not_mem_nil,
        or_false] at hm ⊢
      tauto
    simp only [handleFilterMessage, FilterMessage.filterType]
    simp only [List.mem_cons, List.mem_singleton, List.not_mem_nil, or_false] at h4
    simp [h4]

/-! ## The chart aggregation -/

/-- C2: an empty series selection gives the same chart data as the selection
of all three series, for the getter on any container and for `aggregate` on
any cadence matrix (a missing one included), whatever the collation. -/
theorem chartData_empty_selection_eq_all (localeCompare : String → String → Int)
    (c : Container) (m : Option CadenceMatrix) :
    chartData localeCompare { c with filterState := { c.filterState with prioritySeries := [] } } =
        chartData localeCompare { c with filterState :=
          { c.filterState with prioritySeries := ["500", "600", "700"] } } ∧
      aggregate localeCompare m [] = aggregate localeCompare m ["500", "600", "700"] := by
  have h : ∀ m : Option CadenceMatrix,
      aggregate localeCompare m [] = aggregate localeCompare m ["500", "600", "700"] := by
    intro m
    cases m with
    | none => rfl
    | some matrix => rfl
  exact ⟨h _, h m⟩

/-! ## The table sort -/

/-- The array `sort` returns is a rearrangement of the array it was given. -/
theorem arraySort_perm {α : Type} (cmp : α → α → Int) (l : List α) :
    (arraySort cmp l).Perm l :=
  List.perm_insertionSort _ l

/-- With a comparator that is total and transitive, every element of the
sorted array is at or before each later one. -/
theorem arraySort_pairwise {α : Type} (cmp : α → α → Int)
    (htotal : ∀ a b, cmp a b ≤ 0 ∨ cmp b a ≤ 0)
    (htrans : ∀ a b c, cmp a b ≤ 0 → cmp b c ≤ 0 → cmp a c ≤ 0) (l : List α) :
    (arraySort cmp l).Pairwise (fun a b => cmp a b ≤ 0) := by
  haveI : IsTotal α (fun a b => cmp a b ≤ 0) := ⟨htotal⟩
  haveI : IsTrans α (fun a b => cmp a b ≤ 0) := ⟨htrans⟩
  exact List.sorted_insertionSort (fun a b => cmp a b ≤ 0) l

theorem orderedInsert_congr {α : Type} (r r' : α → α → Prop) [DecidableRel r]
    [DecidableRel r'] (a : α) (l : List α) (h : ∀ b ∈ l, r a b ↔ r' a b) :
    l.orderedInsert r a = l.orderedInsert r' a := by
  induction l with
  | nil => rfl
  | cons b rest ih =>
    have hab := h b (List.mem_cons_self _ _)
    have hrest := ih (fun x hx => h x (List.mem_cons_of_mem _ hx))
    by_cases hr : r a b
    · simp [List.orderedInsert, hr, hab.mp hr]
    · have hr' : ¬ r' a b := fun h' => hr (hab.mpr h')
      simp [List.orderedInsert, hr, hr', hrest]

/-- Two comparators that agree on the elements of an array sort it alike. -/
theorem arraySort_congr {α : Type} (cmp cmp' : α → α → Int) (l : List α)
    (h : ∀ a ∈ l, ∀ b ∈ l, (cmp a b ≤ 0 ↔ cmp' a b ≤ 0)) :
    arraySort cmp l = arraySort cmp' l := by
  unfold arraySort
  induction l with
  | nil => rfl
  | cons a rest ih =>
    have hrest := ih (fun x hx y hy => h x (List.mem_cons_of_mem _ hx) y
      (List.mem_cons_of_mem _ hy))
    simp only [List.insertionSort]
    rw [hrest]
    apply orderedInsert_congr
    intro b hb
    rw [List.mem_insertionSort] at hb
    exact h a (List.mem_cons_self _ _) b (List.mem_cons_of_mem _ hb)

theorem revenueNumber_eq (row : Row) : revenueNumber row.annualRevenue = row.revenue := by
  unfold revenueNumber Row.revenue
  cases row.annualRevenue <;> rfl

/-- C9: `sortData` returns a permutation of the rows it is given (same
length, every row as often as before), for every field and direction; and on
references, with `data` an array in memory, the call returns a new array that
holds the sorted rows and leaves `data` and every other array as it was. -/
theorem sortData_permutation (sortField sortDirection : String) (rows : List Row)
    (store : Store) (data : Nat) (hdata : data < store.length) :
    (sortData sortField sortDirection rows).Perm rows ∧
      (sortData sortField sortDirection rows).length = rows.length ∧
      (∀ row, (sortData sortField sortDirection rows).count row = rows.count row) ∧
      (sortDataIn sortField sortDirection store data).2 ≠ data ∧
      Store.read (sortDataIn sortField sortDirection store data).1
          (sortDataIn sortField sortDirection store data).2
        = sortData sortField sortDirection (store.read data) ∧
      (∀ ref, ref < store.length →
        Store.read (sortDataIn sortField sortDirection store data).1 ref = store.read ref) := by
  have hperm : (sortData sortField sortDirection rows).Perm rows := arraySort_perm _ rows
  refine ⟨hperm, hperm.length_eq, fun row => hperm.count_eq row, ?_, ?_, ?_⟩
  · simp only [sortDataIn, Store.spread]
    omega
  · simp only [sortDataIn, Store.spread, Store.sortInPlace, Store.read, sortData,
      List.getD_eq_getElem?_getD]
    rw [List.getElem?_set]
    simp
  · intro ref href
    simp only [sortDataIn, Store.spread, Store.sortInPlace, Store.read,
      List.getD_eq_getElem?_getD]
    rw [List.getElem?_set_ne (by omega), List.getElem?_append_left href]

/-- C9 at a store of one two-row array. -/
theorem sortData_permutation_witness :
    (sortData "name" "asc" [zetaRow, acmeRow]).Perm [zetaRow, acmeRow] ∧
      (sortDataIn "name" "asc" [[zetaRow, acmeRow]] 0).1 =
        [[zetaRow, acmeRow], [acmeRow, zetaRow]] :=
  ⟨(sortData_permutation "name" "asc" [zetaRow, acmeRow] [[zetaRow, acmeRow]] 0
      (by decide)).1, by decide⟩

/-- C10: sorting by `annualRevenue` orders the rows by revenue, a missing
revenue counted as 0: non-decreasing for `'asc'`, non-increasing for `'desc'`;
on the two-row example `'desc'` gives Acme, then Zeta, whichever way the rows
come in. -/
theorem sortData_annualRevenue_sorted (data : List Row) :
    (sortData "annualRevenue" "asc" data).Pairwise (fun a b => a.revenue ≤ b.revenue) ∧
      (sortData "annualRevenue" "desc" data).Pairwise (fun a b => b.revenue ≤ a.revenue) ∧
      sortData "annualRevenue" "desc" [acmeRow, zetaRow] = [acmeRow, zetaRow] ∧
      sortData "annualRevenue" "desc" [zetaRow, acmeRow] = [acmeRow, zetaRow] := by
  refine ⟨?_, ?_, by decide, by decide⟩
  · have h := arraySort_pairwise (compareRows "annualRevenue" 1)
      (fun a b => by simp only [compareRows, if_true, revenueNumber_eq]; omega)
      (fun a b c => by simp only [compareRows, if_true, revenueNumber_eq]; omega) data
    refine List.Pairwise.imp ?_ h
    intro a b hab
    simp only [compareRows, if_true, revenueNumber_eq] at hab
    omega
  · have h := arraySort_pairwise (compareRows "annualRevenue" (-1))
      (fun a b => by simp only [compareRows, if_true, revenueNumber_eq]; omega)
      (fun a b c => by simp only [compareRows, if_true, revenueNumber_eq]; omega) data
    refine List.Pairwise.imp ?_ h
    intro a b hab
    simp only [compareRows, if_true, revenueNumber_eq] at hab
    omega

/-! ## The priority map -/

theorem mapGet_mapSet (pm : PriorityMap) (k : String) (v : SeriesAggregate) (k' : String) :
    mapGet (mapSet pm k v) k' = if k = k' then some v else mapGet pm k' := by
  induction pm with
  | nil => simp [mapSet, mapGet]
  | cons kv rest ih =>
    obtain ⟨k0, v0⟩ := kv
    by_cases h : k0 = k
    · subst h
      by_cases h' : k0 = k' <;> simp [mapSet, mapGet, h']
    · by_cases h' : k0 = k'
      · subst h'
        simp [mapSet, mapGet, h, Ne.symm h]
      · simp [mapSet, mapGet, h, h', ih]

theorem keys_mapSet (pm : PriorityMap) (k : String) (v : SeriesAggregate) :
    (mapSet pm k v).map Prod.fst =
      if k ∈ pm.map Prod.fst then pm.map Prod.fst else pm.map Prod.fst ++ [k] := by
  induction pm with
  | nil => simp [mapSet]
  | cons kv rest ih =>
    obtain ⟨k0, v0⟩ := kv
    by_cases h : k0 = k
    · subst h
      simp [mapSet]
    · have h' : ¬ k = k0 := fun e => h e.symm
      by_cases hm : k ∈ rest.map Prod.fst
      · simp only [mapSet, h, if_false, List.map_cons, ih, hm, if_true, List.mem_cons, or_true]
      · simp only [mapSet, h, if_false, List.map_cons, ih, hm, List.mem_cons, h', or_self,
          List.cons_append]

theorem nodup_keys_mapSet (pm : PriorityMap) (k : String) (v : SeriesAggregate)
    (h : (pm.map Prod.fst).Nodup) : ((mapSet pm k v).map Prod.fst).Nodup := by
  rw [keys_mapSet]
  split
  · exact h
  · rename_i hk
    rw [List.nodup_append]
    refine ⟨h, List.nodup_singleton k, ?_⟩
    intro a ha hb
    rw [List.mem_singleton] at hb
    exact hk (hb ▸ ha)

theorem mapGet_eq_some_iff (pm : PriorityMap) (h : (pm.map Prod.fst).Nodup) (k : String)
    (v : SeriesAggregate) : mapGet pm k = some v ↔ (k, v) ∈ pm := by
  induction pm with
  | nil => simp [mapGet]
  | cons kv rest ih =>
    obtain ⟨k0, v0⟩ := kv
    rw [List.map_cons, List.nodup_cons] at h
    by_cases hk : k0 = k
    · subst hk
      simp only [mapGet, if_true, Option.some.injEq, List.mem_cons, Prod.mk.injEq, true_and]
      constructor
      · intro e; exact Or.inl e.symm
      · rintro (e | hm)
        · exact e.symm
        · exact absurd (List.mem_map_of_mem Prod.fst hm) h.1
    · have hk' : ¬ k = k0 := fun e => hk e.symm
      simp only [mapGet, hk, if_false, List.mem_cons, Prod.mk.injEq, hk', false_and, false_or]
      exact ih h.2

theorem mapGet_isSome_iff (pm : PriorityMap) (k : String) :
    (mapGet pm k).isSome = true ↔ k ∈ pm.map Prod.fst := by
  induction pm with
  | nil => simp [mapGet]
  | cons kv rest ih =>
    obtain ⟨k0, v0⟩ := kv
    by_cases hk : k0 = k
    · simp [mapGet, hk]
    · have hk' : ¬ k = k0 := fun e => hk e.symm
      simp [mapGet, hk, hk', ih]

theorem mapGet_step (pm : PriorityMap) (ti : String × CadenceItem) (key : String) :
    mapGet (step pm ti) key = accumulate key (mapGet pm key) ti := by
  unfold step processItem accumulate
  rw [mapGet_mapSet]
  by_cases h : ti.2.priority = key
  · subst h
    cases hg : mapGet pm ti.2.priority <;> simp [countOf, assetsOf]
  · simp [h]

theorem mapGet_foldl_step (items : List (String × CadenceItem)) (pm : PriorityMap)
    (key : String) :
    mapGet (items.foldl step pm) key = items.foldl (accumulate key) (mapGet pm key) := by
  induction items generalizing pm with
  | nil => rfl
  | cons ti rest ih => simp only [List.foldl_cons, ih, mapGet_step]

theorem nodup_keys_foldl_step (items : List (String × CadenceItem)) (pm : PriorityMap)
    (h : (pm.map Prod.fst).Nodup) : ((items.foldl step pm).map Prod.fst).Nodup := by
  induction items generalizing pm with
  | nil => exact h
  | cons ti rest ih => exact ih _ (nodup_keys_mapSet _ _ _ h)

theorem processSeriesData_eq (seriesData : Option (List CadenceItem)) (tag : String)
    (pm : PriorityMap) :
    processSeriesData seriesData tag pm = (tagged (tag, seriesData.getD [])).foldl step pm := by
  cases seriesData with
  | none => rfl
  | some items =>
    simp only [processSeriesData, tagged, Option.getD_some, List.foldl_map]
    rfl

theorem buildPriorityMap_eq (matrix : CadenceMatrix) (selection : List String) :
    buildPriorityMap matrix selection = (includedItems matrix selection).foldl step [] := by
  simp only [buildPriorityMap, includedItems, includedSeries, processSeriesData_eq]
  by_cases h0 : selection = []
  · subst h0
    simp [List.filter, List.flatMap]
  · have hlen : (selection.length == 0) = false := by
      cases selection with
      | nil => exact absurd rfl h0
      | cons a l => rfl
    by_cases h5 : "500" ∈ selection <;> by_cases h6 : "600" ∈ selection <;>
      by_cases h7 : "700" ∈ selection <;>
      simp [List.filter, List.flatMap, hlen, h0, h5, h6, h7]

/-! ## What the fold stores under one key -/

theorem accumulate_count (key : String) (items : List (String × CadenceItem))
    (acc : Option SeriesAggregate) :
    countOf (items.foldl (accumulate key) acc) =
      ((items.filter (fun ti => decide (ti.2.priority = key))).map
        (fun ti => ti.2.count.toNumber)).foldl JsNum.add (countOf acc) := by
  induction items generalizing acc with
  | nil => rfl
  | cons ti rest ih =>
    rw [List.foldl_cons, ih]
    by_cases h : ti.2.priority = key
    · simp [accumulate, h, countOf]
    · simp [accumulate, h]

theorem accumulate_assets (key : String) (items : List (String × CadenceItem))
    (acc : Option SeriesAggregate) :
    assetsOf (items.foldl (accumulate key) acc) =
      ((items.filter (fun ti => decide (ti.2.priority = key))).map
        (fun ti => ti.2.totalAssets.orZero)).foldl JsNum.add (assetsOf acc) := by
  induction items generalizing acc with
  | nil => rfl
  | cons ti rest ih =>
    rw [List.foldl_cons, ih]
    by_cases h : ti.2.priority = key
    · simp [accumulate, h, assetsOf]
    · simp [accumulate, h]

theorem accumulate_series (key : String) (items : List (String × CadenceItem))
    (acc : Option SeriesAggregate) :
    (items.foldl (accumulate key) acc).map (fun e => e.series) =
      (((items.filter (fun ti => decide (ti.2.priority = key))).getLast?).map Prod.fst).or
        (acc.map (fun e => e.series)) := by
  induction items generalizing acc with
  | nil => rfl
  | cons ti rest ih =>
    rw [List.foldl_cons, ih]
    by_cases h : ti.2.priority = key
    · simp only [accumulate, h, if_true, Option.map_some', decide_True, List.filter_cons_of_pos,
        List.getLast?_cons]
      cases (rest.filter (fun ti => decide (ti.2.priority = key))).getLast? <;> rfl
    · simp [accumulate, h]

theorem accumulate_isSome (key : String) (items : List (String × CadenceItem))
    (acc : Option SeriesAggregate) :
    (items.foldl (accumulate key) acc).isSome = true ↔
      acc.isSome = true ∨ ∃ ti ∈ items, ti.2.priority = key := by
  induction items generalizing acc with
  | nil => simp
  | cons ti rest ih =>
    rw [List.foldl_cons, ih]
    by_cases h : ti.2.priority = key
    · simp [accumulate, h]
    · simp [accumulate, h]

theorem foldl_add_toNumber (l : List Field) (a : Int) (h : ∀ x ∈ l, ∃ n, x = Field.num n) :
    (l.map Field.toNumber).foldl JsNum.add (.int a) = .int (a + (l.map Field.value).sum) := by
  induction l generalizing a with
  | nil => simp
  | cons x rest ih =>
    obtain ⟨n, hn⟩ := h x (List.mem_cons_self _ _)
    subst hn
    simp only [List.map_cons, List.foldl_cons, Field.toNumber, JsNum.add, List.sum_cons,
      Field.value]
    rw [ih _ (fun y hy => h y (List.mem_cons_of_mem _ hy))]
    congr 1
    omega

theorem foldl_add_orZero (l : List Field) (a : Int) :
    (l.map Field.orZero).foldl JsNum.add (.int a) = .int (a + (l.map Field.value).sum) := by
  induction l generalizing a with
  | nil => simp
  | cons x rest ih =>
    cases x <;>
    · simp only [List.map_cons, List.foldl_cons, Field.orZero, JsNum.add, List.sum_cons,
        Field.value]
      rw [ih]
      congr 1
      omega

/-- The last series, in the order given, that has an entry with priority `p`
is the series of the last such entry. -/
theorem getLast?_tagged_filter (p : String) (series : List (String × List CadenceItem)) :
    (((series.flatMap tagged).filter (fun ti => decide (ti.2.priority = p))).getLast?).map
        Prod.fst =
      ((series.filter (fun s => s.2.any (fun item => decide (item.priority = p)))).getLast?).map
        Prod.fst := by
  induction series using List.reverseRecOn with
  | nil => rfl
  | append_singleton init s ih =>
    have hone : (((tagged s).filter (fun ti => decide (ti.2.priority = p))).getLast?).map
        Prod.fst = if s.2.any (fun item => decide (item.priority = p)) = true
          then some s.1 else none := by
      split
      · rename_i hany
        cases hl : ((tagged s).filter (fun ti => decide (ti.2.priority = p))).getLast? with
        | none =>
          rw [List.getLast?_eq_none_iff, List.filter_eq_nil_iff] at hl
          rw [List.any_eq_true] at hany
          obtain ⟨item, hi, hp⟩ := hany
          exact absurd hp (hl (s.1, item) (List.mem_map_of_mem _ hi))
        | some ti =>
          have hm := List.mem_of_getLast?_eq_some hl
          rw [List.mem_filter] at hm
          simp only [tagged, List.mem_map] at hm
          obtain ⟨⟨item, _, hit⟩, _⟩ := hm
          simp [← hit]
      · rename_i hany
        have : (tagged s).filter (fun ti => decide (ti.2.priority = p)) = [] := by
          rw [List.filter_eq_nil_iff]
          intro ti hti hp
          simp only [tagged, List.mem_map] at hti
          obtain ⟨item, hi, hit⟩ := hti
          apply hany
          rw [List.any_eq_true]
          exact ⟨item, hi, by simpa [← hit] using hp⟩
        rw [this]
        rfl
    simp only [List.flatMap_append, List.flatMap_cons, List.flatMap_nil, List.append_nil,
      List.filter_append, List.getLast?_append]
    by_cases hany : s.2.any (fun item => decide (item.priority = p)) = true
    · rw [hany] at hone
      simp only [if_true] at hone
      have hs : [s].filter (fun s => s.2.any (fun item => decide (item.priority = p))) = [s] := by
        simp [List.filter, hany]
      rw [hs]
      cases hl : ((tagged s).filter (fun ti => decide (ti.2.priority = p))).getLast? with
      | none => rw [hl] at hone; simp at hone
      | some ti =>
        rw [hl] at hone
        simpa using hone
    · have hs : [s].filter (fun s => s.2.any (fun item => decide (item.priority = p))) = [] := by
        simp [List.filter, hany]
      rw [hs]
      simp only [hany] at hone
      cases hl : ((tagged s).filter (fun ti => decide (ti.2.priority = p))).getLast? with
      | none => simpa using ih
      | some ti => rw [hl] at hone; simp at hone

/-! ## The order on strings -/

theorem char_eq_of_toNat_eq {a b : Char} (h : a.toNat = b.toNat) : a = b := by
  rw [← Char.ofNat_toNat a, ← Char.ofNat_toNat b, h]

theorem strLt_irrefl (a : List Char) : strLt a a = false := by
  induction a with
  | nil => rfl
  | cons x rest ih => simp [strLt, ih]

theorem strLt_asymm (a b : List Char) (h : strLt a b = true) : strLt b a = false := by
  induction a generalizing b with
  | nil => cases b <;> simp_all [strLt]
  | cons x rest ih =>
    cases b with
    | nil => simp [strLt] at h
    | cons y rest' =>
      simp only [strLt] at h ⊢
      by_cases h1 : x.toNat < y.toNat
      · have h2 : ¬ y.toNat < x.toNat := by omega
        simp [h2, h1]
      · by_cases h2 : y.toNat < x.toNat
        · simp [h1, h2] at h
        · simp only [h1, h2, if_false] at h ⊢
          exact ih _ h

theorem strLt_trans (a b c : List Char) (hab : strLt a b = true) (hbc : strLt b c = true) :
    strLt a c = true := by
  induction a generalizing b c with
  | nil =>
    cases b with
    | nil => simp [strLt] at hab
    | cons y rb =>
      cases c with
      | nil => simp [strLt] at hbc
      | cons z rc => rfl
  | cons x ra ih =>
    cases b with
    | nil => simp [strLt] at hab
    | cons y rb =>
      cases c with
      | nil => simp [strLt] at hbc
      | cons z rc =>
        simp only [strLt] at hab hbc ⊢
        by_cases h1 : x.toNat < y.toNat
        · by_cases h2 : y.toNat < z.toNat
          · have : x.toNat < z.toNat := by omega
            simp [this]
          · by_cases h3 : z.toNat < y.toNat
            · simp [h2, h3] at hbc
            · have : x.toNat < z.toNat := by omega
              simp [this]
        · by_cases h1' : y.toNat < x.toNat
          · simp [h1, h1'] at hab
          · simp only [h1, h1', if_false] at hab
            by_cases h2 : y.toNat < z.toNat
            · have : x.toNat < z.toNat := by omega
              simp [this]
            · by_cases h3 : z.toNat < y.toNat
              · simp [h2, h3] at hbc
              · simp only [h2, h3, if_false] at hbc
                have e1 : ¬ x.toNat < z.toNat := by omega
                have e2 : ¬ z.toNat < x.toNat := by omega
                simp only [e1, e2, if_false]
                exact ih _ _ hab hbc

theorem strLt_connected (a b : List Char) (hab : strLt a b = false) (hba : strLt b a = false) :
    a = b := by
  induction a generalizing b with
  | nil =>
    cases b with
    | nil => rfl
    | cons y rb => simp [strLt] at hab
  | cons x ra ih =>
    cases b with
    | nil => simp [strLt] at hba
    | cons y rb =>
      simp only [strLt] at hab hba
      by_cases h1 : x.toNat < y.toNat
      · simp [h1] at hab
      · by_cases h2 : y.toNat < x.toNat
        · simp [h2] at hba
        · simp only [h1, h2, if_false] at hab hba
          have hxy : x = y := char_eq_of_toNat_eq (by omega)
          rw [hxy, ih _ hab hba]

theorem string_eq_of_data_eq {a b : String} (h : a.data = b.data) : a = b := by
  cases a; cases b; simp_all

theorem lexCompare_nonpos (a b : String) :
    lexCompare a b ≤ 0 ↔ strLt b.data a.data = false := by
  unfold lexCompare
  by_cases h1 : strLt a.data b.data = true
  · simp [h1, strLt_asymm _ _ h1]
  · by_cases h2 : strLt b.data a.data = true
    · simp [h1, h2]
    · simp [h1, h2]

theorem lexCompare_total (a b : String) :
    lexCompare a b ≤ 0 ∨ lexCompare b a ≤ 0 := by
  rw [lexCompare_nonpos, lexCompare_nonpos]
  by_cases h : strLt b.data a.data = true
  · exact Or.inr (strLt_asymm _ _ h)
  · exact Or.inl (by simpa using h)

theorem lexCompare_trans (a b c : String) (hab : lexCompare a b ≤ 0)
    (hbc : lexCompare b c ≤ 0) : lexCompare a c ≤ 0 := by
  rw [lexCompare_nonpos] at hab hbc ⊢
  by_contra hca
  have hca' : strLt c.data a.data = true := by simpa using hca
  by_cases h : strLt a.data b.data = true
  · have := strLt_trans _ _ _ hca' h
    simp [this] at hbc
  · have hab' : a.data = b.data := strLt_connected _ _ (by simpa using h) hab
    rw [hab'] at hca'
    simp [hca'] at hbc

theorem strLt_threeDigit (a b : String) (ha : isThreeDigitCode a = true)
    (hb : isThreeDigitCode b = true) :
    strLt a.data b.data = true ↔ codeNumber a < codeNumber b := by
  unfold isThreeDigitCode at ha hb
  unfold codeNumber
  generalize a.data = x at ha ⊢
  generalize b.data = y at hb ⊢
  simp only [Bool.and_eq_true, beq_iff_eq, List.all_eq_true] at ha hb
  obtain ⟨hla, hda⟩ := ha
  obtain ⟨hlb, hdb⟩ := hb
  match x, hla, hda with
  | [a1, a2, a3], _, hda =>
    match y, hlb, hdb with
    | [b1, b2, b3], _, hdb =>
      have ha1 := hda a1 (by simp)
      have ha2 := hda a2 (by simp)
      have ha3 := hda a3 (by simp)
      have hb1 := hdb b1 (by simp)
      have hb2 := hdb b2 (by simp)
      have hb3 := hdb b3 (by simp)
      simp only [isDecimalDigit, Bool.and_eq_true, decide_eq_true_eq] at ha1 ha2 ha3 hb1 hb2 hb3
      simp only [strLt, digitsValue, List.foldl_cons, List.foldl_nil]
      split_ifs <;> simp <;> omega

/-! ## The chart entries -/

theorem mem_aggregate (localeCompare : String → String → Int) (matrix : CadenceMatrix)
    (selection : List String) (e : ChartEntry) :
    e ∈ aggregate localeCompare (some matrix) selection ↔
      ∃ k v, (includedItems matrix selection).foldl (accumulate k) none = some v ∧
        toChartEntry (k, v) = e := by
  have hnd : ((buildPriorityMap matrix selection).map Prod.fst).Nodup := by
    rw [buildPriorityMap_eq]
    exact nodup_keys_foldl_step _ _ List.nodup_nil
  have hget : ∀ k, mapGet (buildPriorityMap matrix selection) k =
      (includedItems matrix selection).foldl (accumulate k) none := by
    intro k
    rw [buildPriorityMap_eq, mapGet_foldl_step]
    rfl
  simp only [aggregate]
  rw [(arraySort_perm _ _).mem_iff, List.mem_map]
  constructor
  · rintro ⟨⟨k, v⟩, hmem, he⟩
    exact ⟨k, v, by rw [← hget, mapGet_eq_some_iff _ hnd]; exact hmem, he⟩
  · rintro ⟨k, v, hk, he⟩
    rw [← hget, mapGet_eq_some_iff _ hnd] at hk
    exact ⟨(k, v), hk, he⟩

theorem labels_aggregate_perm (localeCompare : String → String → Int)
    (matrix : CadenceMatrix) (selection : List String) :
    ((aggregate localeCompare (some matrix) selection).map (fun e => e.label)).Perm
      ((buildPriorityMap matrix selection).map Prod.fst) := by
  simp only [aggregate]
  refine ((arraySort_perm _ _).map _).trans ?_
  rw [List.map_map]
  exact List.Perm.of_eq (List.map_congr_left (fun kv _ => rfl))

theorem labels_aggregate_nodup (localeCompare : String → String → Int)
    (matrix : CadenceMatrix) (selection : List String) :
    ((aggregate localeCompare (some matrix) selection).map (fun e => e.label)).Nodup := by
  rw [(labels_aggregate_perm localeCompare matrix selection).nodup_iff, buildPriorityMap_eq]
  exact nodup_keys_foldl_step _ _ List.nodup_nil

theorem mem_keys_buildPriorityMap (matrix : CadenceMatrix) (selection : List String)
    (p : String) :
    p ∈ (buildPriorityMap matrix selection).map Prod.fst ↔
      ∃ ti ∈ includedItems matrix selection, ti.2.priority = p := by
  rw [← mapGet_isSome_iff, buildPriorityMap_eq, mapGet_foldl_step, accumulate_isSome]
  simp [mapGet]

theorem mem_includedItems (matrix : CadenceMatrix) (selection : List String)
    (ti : String × CadenceItem) :
    ti ∈ includedItems matrix selection ↔
      ∃ s ∈ includedSeries matrix selection, ti.1 = s.1 ∧ ti.2 ∈ s.2 := by
  simp only [includedItems, List.mem_flatMap, tagged, List.mem_map]
  constructor
  · rintro ⟨s, hs, item, hi, rfl⟩
    exact ⟨s, hs, rfl, hi⟩
  · rintro ⟨s, hs, h1, h2⟩
    exact ⟨s, hs, ti.2, h2, by rw [← h1]⟩

/-- With the lexicographic collation the labels come out strictly increasing. -/
theorem labels_lexCompare_increasing (matrix : CadenceMatrix) (selection : List String) :
    ((aggregate lexCompare (some matrix) selection).map (fun e => e.label)).Pairwise
      (fun a b => strLt a.data b.data = true) := by
  have hnd := labels_aggregate_nodup lexCompare matrix selection
  have hle : ((aggregate lexCompare (some matrix) selection).map (fun e => e.label)).Pairwise
      (fun a b => lexCompare a b ≤ 0) := by
    rw [List.pairwise_map]
    exact arraySort_pairwise (fun a b : ChartEntry => lexCompare a.label b.label)
      (fun a b => lexCompare_total _ _) (fun a b c => lexCompare_trans _ _ _) _
  refine List.Pairwise.imp₂ ?_ hle hnd
  intro a b hab hne
  rw [lexCompare_nonpos] at hab
  by_contra hlt
  exact hne (string_eq_of_data_eq (strLt_connected _ _ (by simpa using hlt) hab))

theorem lexCompare_pos (a b : String) : 0 < lexCompare a b ↔ strLt b.data a.data = true := by
  have h := lexCompare_nonpos a b
  constructor
  · intro hpos
    by_contra hn
    have := h.mpr (by simpa using hn)
    omega
  · intro hlt
    by_contra hn
    have := h.mp (by omega)
    simp [this] at hlt

/-- C4: when the priority codes of the included series are strings of decimal
digits, which `localeCompare` orders lexicographically, the list `chartData`
returns is strictly increasing by label in lexicographic string order, so its
labels are pairwise distinct; when every label is a code of three decimal
digits the labels are also strictly increasing as numbers.  Without a matrix
the list is empty. -/
theorem aggregate_sorted (localeCompare : String → String → Int)
    (hcollation : ∀ a b, isDigitString a = true → isDigitString b = true →
      (0 < localeCompare a b ↔ strLt b.data a.data = true))
    (matrix : CadenceMatrix) (prioritySeries : List String)
    (hcodes : ∀ s ∈ includedSeries matrix prioritySeries, ∀ item ∈ s.2,
      isDigitString item.priority = true) :
    ((aggregate localeCompare (some matrix) prioritySeries).map (fun e => e.label)).Pairwise
        (fun a b => strLt a.data b.data = true) ∧
      ((aggregate localeCompare (some matrix) prioritySeries).map (fun e => e.label)).Nodup ∧
      ((∀ l ∈ (aggregate localeCompare (some matrix) prioritySeries).map (fun e => e.label),
          isThreeDigitCode l = true) →
        ((aggregate localeCompare (some matrix) prioritySeries).map
          (fun e => e.label)).Pairwise (fun a b => codeNumber a < codeNumber b)) ∧
      aggregate localeCompare none prioritySeries = [] := by
  have hdigits : ∀ kv ∈ buildPriorityMap matrix prioritySeries,
      isDigitString kv.1 = true := by
    intro kv hkv
    obtain ⟨ti, hti, hp⟩ := (mem_keys_buildPriorityMap matrix prioritySeries kv.1).mp
      (List.mem_map_of_mem Prod.fst hkv)
    obtain ⟨s, hs, _, h2⟩ := (mem_includedItems _ _ _).mp hti
    rw [← hp]
    exact hcodes s hs ti.2 h2
  have heq : aggregate localeCompare (some matrix) prioritySeries =
      aggregate lexCompare (some matrix) prioritySeries := by
    simp only [aggregate]
    apply arraySort_congr
    intro a ha b hb
    rw [List.mem_map] at ha hb
    obtain ⟨ka, hka, rfl⟩ := ha
    obtain ⟨kb, hkb, rfl⟩ := hb
    have h := hcollation ka.1 kb.1 (hdigits ka hka) (hdigits kb hkb)
    simp only [toChartEntry]
    rw [lexCompare_nonpos]
    constructor
    · intro hle
      by_contra hlt
      have : 0 < localeCompare ka.1 kb.1 := h.mpr (by simpa using hlt)
      omega
    · intro hlt
      by_contra hpos
      have := h.mp (by omega)
      simp [this] at hlt
  have hlt := labels_lexCompare_increasing matrix prioritySeries
  rw [← heq] at hlt
  refine ⟨hlt, labels_aggregate_nodup _ _ _, fun hthree => ?_, rfl⟩
  refine List.Pairwise.imp_of_mem ?_ hlt
  intro a b ha hb hab
  exact (strLt_threeDigit a b (hthree a ha) (hthree b hb)).mp hab

/-- C4 on the sample matrix with all series selected and the lexicographic
collation. -/
theorem aggregate_sorted_witness :
    (aggregate lexCompare (some sampleMatrix) []).map (fun e => e.label)
        = ["500", "510", "601", "700"] ∧
      ((aggregate lexCompare (some sampleMatrix) []).map (fun e => e.label)).Pairwise
        (fun a b => strLt a.data b.data = true) :=
  ⟨by decide, (aggregate_sorted lexCompare (fun a b _ _ => lexCompare_pos a b) sampleMatrix []
    (by decide)).1⟩

/-- C1: on a matrix whose entries in the included series carry numeric counts,
`chartData` returns exactly one entry for each priority code that occurs in an
included series and no other entry; the entry for code `p` has label `p`,
value the sum of `count` and assets the sum of `totalAssets` (a missing one
counted as 0) over the raw entries with priority `p` in the included series,
colour `getPriorityColor(p)`, and as series the tag of the last included
series, in the order 500, 600, 700, that has an entry with priority `p`. -/
theorem aggregate_entries (localeCompare : String → String → Int) (matrix : CadenceMatrix)
    (prioritySeries : List String)
    (hnum : ∀ s ∈ includedSeries matrix prioritySeries, ∀ item ∈ s.2,
      item.count.isNumber = true) :
    ((aggregate localeCompare (some matrix) prioritySeries).map (fun e => e.label)).Nodup ∧
      (∀ p, p ∈ (aggregate localeCompare (some matrix) prioritySeries).map (fun e => e.label) ↔
        ∃ s ∈ includedSeries matrix prioritySeries, ∃ item ∈ s.2, item.priority = p) ∧
      (∀ e ∈ aggregate localeCompare (some matrix) prioritySeries,
        e.value = .int (((entriesOf matrix prioritySeries e.label).map
            (fun ti => ti.2.count.value)).sum) ∧
        e.assets = .int (((entriesOf matrix prioritySeries e.label).map
            (fun ti => ti.2.totalAssets.value)).sum) ∧
        e.color = getPriorityColor (some e.label) ∧
        some e.series =
          (((includedSeries matrix prioritySeries).filter
            (fun s => s.2.any (fun item => decide (item.priority = e.label)))).getLast?).map
            Prod.fst) := by
  refine ⟨labels_aggregate_nodup _ _ _, ?_, ?_⟩
  · intro p
    rw [(labels_aggregate_perm localeCompare matrix prioritySeries).mem_iff,
      mem_keys_buildPriorityMap]
    constructor
    · rintro ⟨ti, hti, hp⟩
      obtain ⟨s, hs, _, h2⟩ := (mem_includedItems _ _ _).mp hti
      exact ⟨s, hs, ti.2, h2, hp⟩
    · rintro ⟨s, hs, item, hi, hp⟩
      exact ⟨(s.1, item), (mem_includedItems _ _ _).mpr ⟨s, hs, rfl, hi⟩, hp⟩
  · intro e he
    obtain ⟨k, v, hfold, rfl⟩ := (mem_aggregate _ _ _ _).mp he
    have hcount := accumulate_count k (includedItems matrix prioritySeries) none
    have hassets := accumulate_assets k (includedItems matrix prioritySeries) none
    have hseries := accumulate_series k (includedItems matrix prioritySeries) none
    rw [hfold] at hcount hassets hseries
    simp only [toChartEntry, entriesOf]
    refine ⟨?_, ?_, trivial, ?_⟩
    · have hall : ∀ x ∈ ((includedItems matrix prioritySeries).filter
          (fun ti => decide (ti.2.priority = k))).map (fun ti => ti.2.count),
          ∃ n, x = Field.num n := by
        intro x hx
        rw [List.mem_map] at hx
        obtain ⟨ti, hti, rfl⟩ := hx
        obtain ⟨s, hs, _, h2⟩ := (mem_includedItems _ _ _).mp (List.mem_filter.mp hti).1
        have hn := hnum s hs ti.2 h2
        cases hc : ti.2.count with
        | num n => exact ⟨n, rfl⟩
        | null => rw [hc] at hn; exact absurd hn (by decide)
        | undefined => rw [hc] at hn; exact absurd hn (by decide)
      have h := foldl_add_toNumber _ 0 hall
      rw [List.map_map, List.map_map] at h
      simp only [countOf, zero_add] at hcount h
      rw [hcount]
      exact h
    · have h := foldl_add_orZero (((includedItems matrix prioritySeries).filter
          (fun ti => decide (ti.2.priority = k))).map (fun ti => ti.2.totalAssets)) 0
      rw [List.map_map, List.map_map] at h
      simp only [assetsOf, zero_add] at hassets h
      rw [hassets]
      exact h
    · simp only [Option.map_some', Option.map_none', Option.or_none] at hseries
      rw [hseries, includedItems, getLast?_tagged_filter]

/-- C1 on the sample matrix with the series 500 and 700 selected. -/
theorem aggregate_entries_witness :
    aggregate lexCompare (some sampleMatrix) ["700", "500"] =
        [⟨"500", .int 1, .int 0, .hex "#1e40af", "500"⟩,
         ⟨"510", .int 15, .int 107, .hex "#60a5fa", "700"⟩,
         ⟨"700", .int 6, .int 1, .hex "#991b1b", "700"⟩] ∧
      ∀ p, p ∈ (aggregate lexCompare (some sampleMatrix) ["700", "500"]).map (fun e => e.label) ↔
        ∃ s ∈ includedSeries sampleMatrix ["700", "500"], ∃ item ∈ s.2, item.priority = p :=
  ⟨by decide, (aggregate_entries lexCompare sampleMatrix ["700", "500"] (by decide)).2.1⟩

theorem accumulate_foldl_of_absent (key : String) (items : List (String × CadenceItem))
    (acc : Option SeriesAggregate) (h : ∀ ti ∈ items, ti.2.priority ≠ key) :
    items.foldl (accumulate key) acc = acc := by
  induction items generalizing acc with
  | nil => rfl
  | cons ti rest ih =>
    rw [List.foldl_cons, ih _ (fun x hx => h x (List.mem_cons_of_mem _ hx))]
    simp [accumulate, h ti (List.mem_cons_self _ _)]

theorem includedItems_of_mem (matrix : CadenceMatrix) (selection : List String)
    (h5 : Bool) (h6 : Bool) (h7 : Bool)
    (e5 : decide ("500" ∈ selection) = h5) (e6 : decide ("600" ∈ selection) = h6)
    (e7 : decide ("700" ∈ selection) = h7) (hne : selection ≠ []) :
    includedItems matrix selection =
      (if h5 then tagged ("500", matrix.series500.getD []) else []) ++
      (if h6 then tagged ("600", matrix.series600.getD []) else []) ++
      (if h7 then tagged ("700", matrix.series700.getD []) else []) := by
  subst e5 e6 e7
  by_cases m5 : "500" ∈ selection <;> by_cases m6 : "600" ∈ selection <;>
    by_cases m7 : "700" ∈ selection <;>
    simp [includedItems, includedSeries, List.filter, List.flatMap, hne, m5, m6, m7]

/-- C3: when no priority code is in both `series500` and `series600`, the
entries of the chart data for a selection of exactly the series 500 and 600
are the entries for the selection of 500 alone together with the entries for
the selection of 600 alone, an entry being all of label, value, assets, colour
and series. -/
theorem aggregate_union (localeCompare : String → String → Int) (matrix : CadenceMatrix)
    (both only500 only600 : List String)
    (hboth : "500" ∈ both ∧ "600" ∈ both ∧ "700" ∉ both)
    (h500 : "500" ∈ only500 ∧ "600" ∉ only500 ∧ "700" ∉ only500)
    (h600 : "500" ∉ only600 ∧ "600" ∈ only600 ∧ "700" ∉ only600)
    (hdisjoint : ∀ a ∈ matrix.series500.getD [], ∀ b ∈ matrix.series600.getD [],
      a.priority ≠ b.priority)
    (e : ChartEntry) :
    e ∈ aggregate localeCompare (some matrix) both ↔
      e ∈ aggregate localeCompare (some matrix) only500 ∨ e ∈ aggregate localeCompare (some matrix) only600 := by
  have i56 := includedItems_of_mem matrix both true true false (by simp [hboth.1])
    (by simp [hboth.2.1]) (by simp [hboth.2.2]) (List.ne_nil_of_mem hboth.1)
  have i5 := includedItems_of_mem matrix only500 true false false (by simp [h500.1])
    (by simp [h500.2.1]) (by simp [h500.2.2]) (List.ne_nil_of_mem h500.1)
  have i6 := includedItems_of_mem matrix only600 false true false (by simp [h600.1])
    (by simp [h600.2.1]) (by simp [h600.2.2]) (List.ne_nil_of_mem h600.2.1)
  simp only [if_true, Bool.false_eq_true, if_false, List.append_nil, List.nil_append]
    at i56 i5 i6
  have key : ∀ k v,
      (includedItems matrix both).foldl (accumulate k) none = some v ↔
        ((includedItems matrix only500).foldl (accumulate k) none = some v ∨
          (includedItems matrix only600).foldl (accumulate k) none = some v) := by
    intro k v
    rw [i56, i5, i6, List.foldl_append]
    by_cases hk : ∃ b ∈ matrix.series600.getD [], b.priority = k
    · obtain ⟨b, hb, hbk⟩ := hk
      have hnone : (tagged ("500", matrix.series500.getD [])).foldl (accumulate k) none
          = none := by
        apply accumulate_foldl_of_absent
        intro ti hti
        simp only [tagged, List.mem_map] at hti
        obtain ⟨a, ha, rfl⟩ := hti
        rw [← hbk]
        exact hdisjoint a ha b hb
      rw [hnone]
      simp
    · have hid : ∀ acc, (tagged ("600", matrix.series600.getD [])).foldl (accumulate k) acc
          = acc := by
        intro acc
        apply accumulate_foldl_of_absent
        intro ti hti hp
        simp only [tagged, List.mem_map] at hti
        obtain ⟨b, hb, rfl⟩ := hti
        exact hk ⟨b, hb, hp⟩
      rw [hid, hid]
      simp
  rw [mem_aggregate, mem_aggregate, mem_aggregate]
  constructor
  · rintro ⟨k, v, hf, he⟩
    rcases (key k v).mp hf with h | h
    · exact Or.inl ⟨k, v, h, he⟩
    · exact Or.inr ⟨k, v, h, he⟩
  · rintro (⟨k, v, hf, he⟩ | ⟨k, v, hf, he⟩)
    · exact ⟨k, v, (key k v).mpr (Or.inl hf), he⟩
    · exact ⟨k, v, (key k v).mpr (Or.inr hf), he⟩

/-- C3 on a matrix with disjoint series 500 and 600, at the entry for code 601. -/
theorem aggregate_union_witness :
    (⟨"601", .int 4, .int 9, .hex "#a78bfa", "600"⟩ : ChartEntry)
        ∈ aggregate lexCompare (some disjointMatrix) ["600", "500"] ∧
      aggregate lexCompare (some disjointMatrix) ["500"] =
        [⟨"500", .int 1, .int 0, .hex "#1e40af", "500"⟩,
         ⟨"510", .int 5, .int 7, .hex "#60a5fa", "500"⟩] ∧
      aggregate lexCompare (some disjointMatrix) ["600"] =
        [⟨"600", .nan, .int 1, .hex "#7c3aed", "600"⟩,
         ⟨"601", .int 4, .int 9, .hex "#a78bfa", "600"⟩] :=
  ⟨(aggregate_union lexCompare disjointMatrix ["600", "500"] ["500"] ["600"] (by decide) (by decide)
      (by decide) (by decide) _).mpr (Or.inr (by decide)), by decide, by decide⟩

/-! ## Revenue per status -/

theorem foldl_revenue (accounts : List AccountRecord) (a : Int) :
    accounts.foldl (fun sum acc => sum.add acc.annualRevenue.orZero) (JsNum.int a) =
      .int (a + (accounts.map (fun acc => acc.annualRevenue.value)).sum) := by
  have h := foldl_add_orZero (accounts.map (fun acc => acc.annualRevenue)) a
  rw [List.map_map, List.map_map, List.foldl_map] at h
  exact h

/-- C15: `calculateRevenueForStatus` returns the sum of `annualRevenue`, a
missing or `null` one counted as 0, over exactly the loaded accounts whose
status is the given one; it returns 0 when no account list is loaded, when
the list is empty and when no account has the status. -/
theorem calculateRevenueForStatus_sum (c : Container) (status : String) :
    calculateRevenueForStatus c status =
        .int ((((loadedAccounts c).getD []).filter
          (fun acc => decide (acc.status = some status))).map
            (fun acc => acc.annualRevenue.value)).sum ∧
      (loadedAccounts c = none → calculateRevenueForStatus c status = .int 0) ∧
      (loadedAccounts c = some [] → calculateRevenueForStatus c status = .int 0) ∧
      ((∀ acc ∈ (loadedAccounts c).getD [], acc.status ≠ some status) →
        calculateRevenueForStatus c status = .int 0) := by
  have hmain : calculateRevenueForStatus c status =
      .int ((((loadedAccounts c).getD []).filter
        (fun acc => decide (acc.status = some status))).map
          (fun acc => acc.annualRevenue.value)).sum := by
    unfold calculateRevenueForStatus loadedAccounts
    obtain ⟨fs, dd, il, er, ct, sel, cdm, aso⟩ := c
    cases dd with
    | none => rfl
    | some d =>
      obtain ⟨tu, cm, kpi, fa⟩ := d
      cases fa with
      | none => rfl
      | some accounts =>
        simp only [Option.getD_some]
        rw [foldl_revenue, zero_add]
        congr 3
        apply List.filter_congr
        intro acc _
        by_cases h : acc.status = some status <;> simp [h]
  refine ⟨hmain, ?_, ?_, ?_⟩
  · intro h
    rw [hmain, h]
    rfl
  · intro h
    rw [hmain, h]
    rfl
  · intro h
    rw [hmain]
    have : ((loadedAccounts c).getD []).filter
        (fun acc => decide (acc.status = some status)) = [] := by
      rw [List.filter_eq_nil_iff]
      intro acc hacc
      simpa using h acc hacc
    rw [this]
    rfl

/-- C15 on a container with two customers, one of them without revenue. -/
theorem calculateRevenueForStatus_sum_witness :
    calculateRevenueForStatus loadedContainer "Customer" = .int 500000 ∧
      calculateRevenueForStatus loadedContainer "Partner" = .int 0 ∧
      calculateRevenueForStatus Container.initial "Customer" = .int 0 :=
  ⟨by decide, (calculateRevenueForStatus_sum loadedContainer "Partner").2.2.2 (by decide),
    (calculateRevenueForStatus_sum Container.initial "Customer").2.1 rfl⟩

/-! ## Loading -/

/-- C19: whatever the prior state and however the fetch settles,
`loadDashboardData` ends with `isLoading = false`.  After a failure `error` is
the message of the failure, or `'Failed to load dashboard data'` when the
failure has no body, no message or an empty message, and `dashboardData` and
`allStatusOptions` are what they were.  After a success `error` is `null` and
`dashboardData` is the fetched result.  The same holds for the part of the
function that runs after the `await`, from whatever state it resumes in. -/
theorem loadDashboardData_outcome (getDashboardData : FilterState → FetchOutcome)
    (c : Container) :
    (loadDashboardData getDashboardData c).isLoading = false ∧
      (∀ err, getDashboardData c.filterState = .rejected err →
        (loadDashboardData getDashboardData c).error = some (errorMessage err) ∧
        (loadDashboardData getDashboardData c).dashboardData = c.dashboardData ∧
        (loadDashboardData getDashboardData c).allStatusOptions = c.allStatusOptions) ∧
      (∀ result, getDashboardData c.filterState = .resolved result →
        (loadDashboardData getDashboardData c).error = none ∧
        (loadDashboardData getDashboardData c).dashboardData = result) ∧
      (∀ outcome, (loadDashboardDataFinish outcome c).isLoading = false) ∧
      (∀ err, (loadDashboardDataFinish (.rejected err) c).error = some (errorMessage err) ∧
        (loadDashboardDataFinish (.rejected err) c).dashboardData = c.dashboardData ∧
        (loadDashboardDataFinish (.rejected err) c).allStatusOptions = c.allStatusOptions) ∧
      (∀ message, message ≠ "" → errorMessage ⟨some (some message)⟩ = message) ∧
      errorMessage ⟨none⟩ = "Failed to load dashboard data" ∧
      errorMessage ⟨some none⟩ = "Failed to load dashboard data" ∧
      errorMessage ⟨some (some "")⟩ = "Failed to load dashboard data" := by
  have hfin : ∀ outcome (c' : Container), (loadDashboardDataFinish outcome c').isLoading = false := by
    intro outcome c'
    cases outcome <;> rfl
  refine ⟨hfin _ _, ?_, ?_, fun outcome => hfin _ _, fun err => ⟨rfl, rfl, rfl⟩, ?_, rfl, rfl,
    rfl⟩
  · intro err herr
    have hstart : (loadDashboardDataStart c).2 = c.filterState := rfl
    simp only [loadDashboardData, hstart, herr]
    exact ⟨rfl, rfl, rfl⟩
  · intro result hres
    have hstart : (loadDashboardDataStart c).2 = c.filterState := rfl
    simp only [loadDashboardData, hstart, hres]
    constructor
    · simp only [loadDashboardDataFinish, loadDashboardDataStart]
      split <;> rfl
    · simp only [loadDashboardDataFinish, loadDashboardDataStart]
      split <;> rfl
  · intro message hm
    simp [errorMessage, hm]

theorem allStatusOptions_after_finish (outcome : FetchOutcome) (c : Container) :
    (loadDashboardDataFinish outcome c).allStatusOptions =
      match outcome with
      | .resolved result =>
        if c.filterState.targetStatuses = [] ∧ fetchedTargetUniverse result ≠ [] then
          fetchedTargetUniverse result
        else c.allStatusOptions
      | .rejected _ => c.allStatusOptions := by
  cases outcome with
  | rejected err => rfl
  | resolved result =>
    simp only [loadDashboardDataFinish, fetchedTargetUniverse]
    by_cases h1 : c.filterState.targetStatuses = []
    · by_cases h2 : (match result with
          | some d => d.targetUniverse.getD []
          | none => []) = []
      · simp [h1, h2]
      · have h3 : 0 < (match result with
            | some d => d.targetUniverse.getD []
            | none => []).length := List.length_pos.mpr h2
        simp [h1, h2, h3]
    · have h3 : (c.filterState.targetStatuses.length == 0) = false := by
        cases hts : c.filterState.targetStatuses with
        | nil => exact absurd hts h1
        | cons x xs => rfl
      simp [h1, h3]

/-- C20: `loadDashboardData` replaces the cached `allStatusOptions` with the
fetched `targetUniverse` when the fetch succeeds, `filterState.targetStatuses`
is empty and the fetched `targetUniverse` is non-empty, and leaves it as it
was in every other case; so with a non-empty cache, a load made with a
non-empty `targetStatuses` filter leaves `targetUniverseData` as it was, and
so does the part after the `await` whenever it resumes under such a filter. -/
theorem loadDashboardData_cache (getDashboardData : FilterState → FetchOutcome)
    (c : Container) :
    (∀ result, getDashboardData c.filterState = .resolved result →
        c.filterState.targetStatuses = [] → fetchedTargetUniverse result ≠ [] →
        (loadDashboardData getDashboardData c).allStatusOptions
          = fetchedTargetUniverse result) ∧
      (∀ result, getDashboardData c.filterState = .resolved result →
        c.filterState.targetStatuses ≠ [] ∨ fetchedTargetUniverse result = [] →
        (loadDashboardData getDashboardData c).allStatusOptions = c.allStatusOptions) ∧
      (∀ err, getDashboardData c.filterState = .rejected err →
        (loadDashboardData getDashboardData c).allStatusOptions = c.allStatusOptions) ∧
      (c.allStatusOptions ≠ [] → c.filterState.targetStatuses ≠ [] →
        targetUniverseData (loadDashboardData getDashboardData c) = targetUniverseData c) ∧
      (∀ outcome, c.allStatusOptions ≠ [] → c.filterState.targetStatuses ≠ [] →
        targetUniverseData (loadDashboardDataFinish outcome c) = targetUniverseData c) := by
  have hrun : ∀ outcome, getDashboardData c.filterState = outcome →
      (loadDashboardData getDashboardData c).allStatusOptions =
        (loadDashboardDataFinish outcome c).allStatusOptions := by
    intro outcome ho
    have hstart : (loadDashboardDataStart c).2 = c.filterState := rfl
    simp only [loadDashboardData, hstart, ho]
    rw [allStatusOptions_after_finish, allStatusOptions_after_finish]
    rfl
  have hkeep : c.filterState.targetStatuses ≠ [] →
      (loadDashboardData getDashboardData c).allStatusOptions = c.allStatusOptions := by
    intro hts
    rw [hrun _ rfl, allStatusOptions_after_finish]
    cases getDashboardData c.filterState with
    | rejected err => rfl
    | resolved result => simp [hts]
  refine ⟨?_, ?_, ?_, ?_, ?_⟩
  · intro result hres h1 h2
    rw [hrun _ hres, allStatusOptions_after_finish]
    simp [h1, h2]
  · intro result hres h
    rw [hrun _ hres, allStatusOptions_after_finish]
    rcases h with h | h
    · simp [h]
    · simp [h]
  · intro err herr
    rw [hrun _ herr, allStatusOptions_after_finish]
  · intro hcache hts
    have hsame := hkeep hts
    have hpos : 0 < c.allStatusOptions.length := List.length_pos.mpr hcache
    unfold targetUniverseData
    rw [hsame]
    simp [hpos]
  · intro outcome hcache hts
    have hsame : (loadDashboardDataFinish outcome c).allStatusOptions = c.allStatusOptions := by
      rw [allStatusOptions_after_finish]
      cases outcome with
      | rejected err => rfl
      | resolved result => simp [hts]
    have hpos : 0 < c.allStatusOptions.length := List.length_pos.mpr hcache
    unfold targetUniverseData
    rw [hsame]
    simp [hpos]

/-- C20 on a container with a status filter and a cached option list, against
a server that answers with one status only. -/
theorem loadDashboardData_cache_witness :
    targetUniverseData (loadDashboardData customersOnlyServer filteredContainer)
        = targetUniverseData filteredContainer ∧
      targetUniverseData filteredContainer
        = [⟨"Customer", .num 2, none⟩, ⟨"Dead", .num 1, none⟩] ∧
      (loadDashboardData customersOnlyServer loadedContainer).allStatusOptions
        = [⟨"Customer", .num 2, none⟩] :=
  ⟨(loadDashboardData_cache customersOnlyServer filteredContainer).2.2.2.1 (by decide)
      (by decide), by decide, by decide⟩

/-! ## Colours -/

/-- C16: for every code that is a key of one of the three exact-match tables
(twelve, four and ten keys, all distinct) `getPriorityColor` returns the
constant that table holds for the code, and so does the lookup with the
tables consulted in any of the six orders; `getPriorityColor('503')` is
`'#3b82f6'`. -/
theorem getPriorityColor_exact :
    (∀ kv ∈ exactTables, getPriorityColor (some kv.1) = .hex kv.2) ∧
      (blue500.length = 12 ∧ purple600.length = 4 ∧ red700.length = 10) ∧
      (exactTables.map Prod.fst).Nodup ∧
      (∀ tables ∈ tableOrders, ∀ kv ∈ exactTables,
        consultInOrder tables kv.1 = some (.hex kv.2)) ∧
      getPriorityColor (some "503") = .hex "#3b82f6" := by
  refine ⟨by decide, by decide, by decide, by decide, by decide⟩

theorem digit_facts (c : Char) (h : isDecimalDigit c = true) :
    isStrWhiteSpace c = false ∧ c.isDigit = true ∧ c ≠ '-' ∧ c ≠ '+' := by
  simp only [isDecimalDigit, Bool.and_eq_true, decide_eq_true_eq] at h
  obtain ⟨h1, h2⟩ := h
  have hc : c = Char.ofNat c.toNat := (Char.ofNat_toNat c).symm
  generalize c.toNat = n at h1 h2 hc
  subst hc
  interval_cases n <;> decide

theorem parseInt_two_digits (d1 d2 : Char) (h1 : isDecimalDigit d1 = true)
    (h2 : isDecimalDigit d2 = true) :
    parseInt [d1, d2] = some ((10 * (d1.toNat - 48) + (d2.toNat - 48) : Nat) : Int) := by
  obtain ⟨w1, g1, m1, p1⟩ := digit_facts d1 h1
  obtain ⟨_, g2, _, _⟩ := digit_facts d2 h2
  have hdrop : List.dropWhile isStrWhiteSpace [d1, d2] = [d1, d2] := by
    simp [List.dropWhile, w1]
  have htake : List.takeWhile Char.isDigit [d1, d2] = [d1, d2] := by
    simp [List.takeWhile, g1, g2]
  unfold parseInt
  rw [hdrop]
  dsimp only
  have hm : ∀ (x : Int × List Char),
      (match [d1, d2] with
        | '-' :: rest => ((-1 : Int), rest)
        | '+' :: rest => (1, rest)
        | _ => (1, [d1, d2])) = x → x = (1, [d1, d2]) := by
    intro x hx
    split at hx
    · rename_i heq'
      simp only [List.cons.injEq] at heq'
      exact absurd heq'.1 m1
    · rename_i heq'
      simp only [List.cons.injEq] at heq'
      exact absurd heq'.1 p1
    · exact hx.symm
  rw [hm _ rfl]
  simp only [htake, digitsValue, List.foldl_cons, List.foldl_nil, List.isEmpty_cons,
    Bool.false_eq_true, if_false, one_mul, mul_zero, zero_add]

theorem lookup_none_of_not_mem (table : List (String × String)) (p : String)
    (h : p ∉ table.map Prod.fst) : table.lookup p = none := by
  induction table with
  | nil => rfl
  | cons kv rest ih =>
    obtain ⟨k, v⟩ := kv
    simp only [List.map_cons, List.mem_cons, not_or] at h
    have hne : (p == k) = false := by simpa using h.1
    simp only [List.lookup, hne]
    exact ih h.2

theorem returnIfFound_none (table : List (String × String)) (p : String)
    (h1 : p ∉ table.map Prod.fst) (h2 : p ∉ objectPrototypeNames) :
    returnIfFound table p = none := by
  simp [returnIfFound, objectGet, lookup_none_of_not_mem table p h1, h2, truthy]

theorem getPriorityColor_eq_fallback (p : String) (hne : p ≠ "")
    (h1 : p ∉ exactTables.map Prod.fst) (h2 : p ∉ objectPrototypeNames) :
    getPriorityColor (some p) = fallbackColor p := by
  simp only [exactTables, List.map_append, List.mem_append, not_or] at h1
  obtain ⟨⟨hb, hp⟩, hr⟩ := h1
  simp [getPriorityColor, hne, returnIfFound_none _ _ hb h2, returnIfFound_none _ _ hp h2,
    returnIfFound_none _ _ hr h2]

theorem inherited_names_lead :
    ∀ name ∈ objectPrototypeNames,
      startsWith name '5' = false ∧ startsWith name '6' = false ∧
        startsWith name '7' = false ∧ name ≠ "" := by
  decide

/-- C17: at the code `'constructor'`, which is in none of the tables and
starts with a character other than 5, 6 and 7, `getPriorityColor` returns
the member every object literal inherits under that name, not the gray
`'#6b7280'`.  For every code that is in none of the tables and is not one of
the twelve inherited names the fallback rules decide: `'5dd'` with two
decimal digits of value `n` gives `'#2563eb'` for `n < 10`, `'#60a5fa'` for
`10 ≤ n < 50` and `'#67e8f9'` otherwise; a code starting with `6` gives
`'#a855f7'`, one starting with `7` gives `'#ef4444'`, a non-empty code with
another leading character gives `'#6b7280'`; `null` and `''` give
`'#bdc3c7'`. -/
theorem getPriorityColor_fallback :
    (getPriorityColor (some "constructor") = .objectMember "constructor" ∧
        "constructor" ∉ exactTables.map Prod.fst ∧
        startsWith "constructor" '5' = false ∧ startsWith "constructor" '6' = false ∧
        startsWith "constructor" '7' = false) ∧
      (∀ d1 d2, isDecimalDigit d1 = true → isDecimalDigit d2 = true →
        fiveCode d1 d2 ∉ exactTables.map Prod.fst →
        getPriorityColor (some (fiveCode d1 d2)) =
          if 10 * (d1.toNat - 48) + (d2.toNat - 48) < 10 then .hex "#2563eb"
          else if 10 * (d1.toNat - 48) + (d2.toNat - 48) < 50 then .hex "#60a5fa"
          else .hex "#67e8f9") ∧
      (∀ p, p ∉ exactTables.map Prod.fst → startsWith p '6' = true →
        getPriorityColor (some p) = .hex "#a855f7") ∧
      (∀ p, p ∉ exactTables.map Prod.fst → startsWith p '7' = true →
        getPriorityColor (some p) = .hex "#ef4444") ∧
      (∀ p, p ∉ exactTables.map Prod.fst → p ∉ objectPrototypeNames → p ≠ "" →
        startsWith p '5' = false → startsWith p '6' = false → startsWith p '7' = false →
        getPriorityColor (some p) = .hex "#6b7280") ∧
      getPriorityColor (some "699") = .hex "#a855f7" ∧
      getPriorityColor none = .hex "#bdc3c7" ∧
      getPriorityColor (some "") = .hex "#bdc3c7" := by
  have hlead : ∀ p c, startsWith p c = true → p ≠ "" := by
    intro p c hs hp
    subst hp
    simp [startsWith] at hs
  have hnot : ∀ p, (startsWith p '5' = true ∨ startsWith p '6' = true ∨
      startsWith p '7' = true) → p ∉ objectPrototypeNames := by
    intro p hs hmem
    obtain ⟨h5, h6, h7, _⟩ := inherited_names_lead p hmem
    rcases hs with h | h | h
    · rw [h5] at h; exact absurd h (by decide)
    · rw [h6] at h; exact absurd h (by decide)
    · rw [h7] at h; exact absurd h (by decide)
  refine ⟨⟨by decide, by decide, by decide, by decide, by decide⟩, ?_, ?_, ?_, ?_, by decide,
    rfl, by decide⟩
  · intro d1 d2 h1 h2 hkeys
    have hs : startsWith (fiveCode d1 d2) '5' = true := by simp [startsWith, fiveCode]
    rw [getPriorityColor_eq_fallback _ (hlead _ _ hs) hkeys (hnot _ (Or.inl hs))]
    have hdrop : (fiveCode d1 d2).data.drop 1 = [d1, d2] := rfl
    simp only [fallbackColor, hs, if_true, hdrop, parseInt_two_digits d1 d2 h1 h2, ltNum]
    generalize 10 * (d1.toNat - 48) + (d2.toNat - 48) = n
    simp only [decide_eq_true_eq]
    split_ifs <;> first | rfl | (exfalso; omega)
  · intro p hkeys hs
    have h5 : startsWith p '5' = false := by
      simp only [startsWith] at hs ⊢
      cases hd : p.data.head? with
      | none => simp [hd] at hs
      | some c =>
        simp only [hd, beq_iff_eq, Option.some.injEq] at hs
        subst hs
        decide
    rw [getPriorityColor_eq_fallback _ (hlead _ _ hs) hkeys (hnot _ (Or.inr (Or.inl hs)))]
    simp [fallbackColor, h5, hs]
  · intro p hkeys hs
    have h56 : startsWith p '5' = false ∧ startsWith p '6' = false := by
      simp only [startsWith] at hs ⊢
      cases hd : p.data.head? with
      | none => simp [hd] at hs
      | some c =>
        simp only [hd, beq_iff_eq, Option.some.injEq] at hs
        subst hs
        decide
    rw [getPriorityColor_eq_fallback _ (hlead _ _ hs) hkeys (hnot _ (Or.inr (Or.inr hs)))]
    simp [fallbackColor, h56.1, h56.2, hs]
  · intro p hkeys hinh hne h5 h6 h7
    rw [getPriorityColor_eq_fallback _ hne hkeys hinh]
    simp [fallbackColor, h5, h6, h7]

/-! ## Missing numeric fields in the cadence matrix -/

theorem foldl_add_nan (l : List JsNum) : l.foldl JsNum.add .nan = .nan := by
  induction l with
  | nil => rfl
  | cons x rest ih => simpa [JsNum.add] using ih

theorem foldl_add_toNumber_cases (l : List Field) (a : Int) :
    (l.map Field.toNumber).foldl JsNum.add (.int a) =
      if Field.undefined ∈ l then .nan else .int (a + (l.map Field.value).sum) := by
  induction l generalizing a with
  | nil => simp
  | cons x rest ih =>
    cases x with
    | undefined => simp [Field.toNumber, JsNum.add, foldl_add_nan]
    | null =>
      simp only [List.map_cons, List.foldl_cons, Field.toNumber, JsNum.add, ih, List.mem_cons,
        false_or, List.sum_cons, Field.value, add_zero, zero_add]
      simp
    | num n =>
      simp only [List.map_cons, List.foldl_cons, Field.toNumber, JsNum.add, ih, List.mem_cons,
        false_or, List.sum_cons, Field.value]
      simp [add_assoc]

/-- C18: on a matrix whose only entry has no `count`, `chartData` returns
that entry's code with value NaN, not 0.  In general the assets of an entry
are always the sum of `totalAssets`, a missing or `null` one counted as 0;
the value is NaN exactly when some raw entry of the code has no `count`, and
otherwise it is the sum of `count` with a `null` one counted as 0. -/
theorem aggregate_missing_count (localeCompare : String → String → Int) :
    aggregate localeCompare (some missingCountMatrix) [] =
        [⟨"500", .nan, .int 5, .hex "#1e40af", "500"⟩] ∧
      (∀ matrix prioritySeries, ∀ e ∈ aggregate localeCompare (some matrix) prioritySeries,
        e.assets = .int (((entriesOf matrix prioritySeries e.label).map
            (fun ti => ti.2.totalAssets.value)).sum) ∧
        (e.value = .nan ↔
          ∃ ti ∈ entriesOf matrix prioritySeries e.label, ti.2.count = Field.undefined) ∧
        ((∀ ti ∈ entriesOf matrix prioritySeries e.label, ti.2.count ≠ Field.undefined) →
          e.value = .int (((entriesOf matrix prioritySeries e.label).map
            (fun ti => ti.2.count.value)).sum))) := by
  refine ⟨rfl, ?_⟩
  intro matrix prioritySeries e he
  obtain ⟨k, v, hfold, rfl⟩ := (mem_aggregate _ _ _ _).mp he
  have hcount := accumulate_count k (includedItems matrix prioritySeries) none
  have hassets := accumulate_assets k (includedItems matrix prioritySeries) none
  rw [hfold] at hcount hassets
  have hc := foldl_add_toNumber_cases (((includedItems matrix prioritySeries).filter
      (fun ti => decide (ti.2.priority = k))).map (fun ti => ti.2.count)) 0
  have ha := foldl_add_orZero (((includedItems matrix prioritySeries).filter
      (fun ti => decide (ti.2.priority = k))).map (fun ti => ti.2.totalAssets)) 0
  rw [List.map_map, List.map_map] at hc ha
  simp only [countOf, assetsOf, zero_add] at hcount hassets hc ha
  simp only [toChartEntry, entriesOf]
  have hmem : Field.undefined ∈ ((includedItems matrix prioritySeries).filter
      (fun ti => decide (ti.2.priority = k))).map (fun ti => ti.2.count) ↔
      ∃ ti ∈ (includedItems matrix prioritySeries).filter
        (fun ti => decide (ti.2.priority = k)), ti.2.count = Field.undefined := by
    simp only [List.mem_map]
  refine ⟨by rw [hassets]; exact ha, ?_, ?_⟩
  · rw [hcount]
    constructor
    · intro hnan
      by_contra hno
      have hno' := mt hmem.mp hno
      rw [Function.comp_def] at hc
      rw [hc, if_neg hno'] at hnan
      exact JsNum.noConfusion hnan
    · intro hex
      rw [Function.comp_def] at hc
      rw [hc, if_pos (hmem.mpr hex)]
  · intro hall
    have hno : ¬ Field.undefined ∈ ((includedItems matrix prioritySeries).filter
        (fun ti => decide (ti.2.priority = k))).map (fun ti => ti.2.count) := by
      intro h
      obtain ⟨ti, hti, hu⟩ := hmem.mp h
      exact hall ti hti hu
    rw [hcount]
    rw [Function.comp_def] at hc
    rw [hc, if_neg hno]
    rfl

/-! ## The comparator of the table sort -/

theorem strLe_trans (x y z : List Char) (hxy : strLt y x = false) (hyz : strLt z y = false) :
    strLt z x = false := by
  by_contra hzx
  have hzx' : strLt z x = true := by simpa using hzx
  by_cases h : strLt x y = true
  · have := strLt_trans _ _ _ hzx' h
    simp [this] at hyz
  · have hxy' : x = y := strLt_connected _ _ (by simpa using h) hxy
    rw [hxy'] at hzx'
    simp [hzx'] at hyz

theorem strLe_total (x y : List Char) : strLt y x = false ∨ strLt x y = false := by
  by_cases h : strLt y x = true
  · exact Or.inr (strLt_asymm _ _ h)
  · exact Or.inl (by simpa using h)

theorem compareRows_text (field : String) (d : Int) (a b : Row)
    (h : field ≠ "annualRevenue") :
    compareRows field d a b =
      if strLt (a.lowerValue field) (b.lowerValue field) = true then -1 * d
      else if strLt (b.lowerValue field) (a.lowerValue field) = true then 1 * d
      else 0 := by
  simp [compareRows, Row.lowerValue, h]

theorem compareRows_revenue (d : Int) (a b : Row) :
    compareRows "annualRevenue" d a b = (a.revenue - b.revenue) * d := by
  simp [compareRows, revenueNumber_eq]

theorem compareRows_text_asc (field : String) (a b : Row) (h : field ≠ "annualRevenue") :
    compareRows field 1 a b ≤ 0 ↔ strLt (b.lowerValue field) (a.lowerValue field) = false := by
  rw [compareRows_text field 1 a b h]
  by_cases h1 : strLt (a.lowerValue field) (b.lowerValue field) = true
  · simp [h1, strLt_asymm _ _ h1]
  · by_cases h2 : strLt (b.lowerValue field) (a.lowerValue field) = true
    · simp [h1, h2]
    · simp [h1, h2]

theorem compareRows_text_desc (field : String) (a b : Row) (h : field ≠ "annualRevenue") :
    compareRows field (-1) a b ≤ 0 ↔
      strLt (a.lowerValue field) (b.lowerValue field) = false := by
  rw [compareRows_text field (-1) a b h]
  by_cases h1 : strLt (a.lowerValue field) (b.lowerValue field) = true
  · simp [h1]
  · by_cases h2 : strLt (b.lowerValue field) (a.lowerValue field) = true
    · simp [h1, h2]
    · simp [h1, h2]

theorem compareRows_eq_zero (field : String) (d : Int) (hd : d = 1 ∨ d = -1) (a b : Row) :
    compareRows field d a b = 0 ↔
      if field = "annualRevenue" then a.revenue = b.revenue
      else a.lowerValue field = b.lowerValue field := by
  by_cases h : field = "annualRevenue"
  · subst h
    rw [compareRows_revenue]
    simp only [if_true]
    rcases hd with rfl | rfl <;> constructor <;> intro h <;> omega
  · rw [compareRows_text field d a b h]
    simp only [h, if_false]
    by_cases h1 : strLt (a.lowerValue field) (b.lowerValue field) = true
    · have hne : a.lowerValue field ≠ b.lowerValue field := by
        intro e
        rw [e, strLt_irrefl] at h1
        exact absurd h1 (by decide)
      rcases hd with rfl | rfl <;> simp [h1, hne]
    · by_cases h2 : strLt (b.lowerValue field) (a.lowerValue field) = true
      · have hne : a.lowerValue field ≠ b.lowerValue field := by
          intro e
          rw [e, strLt_irrefl] at h2
          exact absurd h2 (by decide)
        rcases hd with rfl | rfl <;> simp [h1, h2, hne]
      · have he : a.lowerValue field = b.lowerValue field :=
          strLt_connected _ _ (by simpa using h1) (by simpa using h2)
        simp [he, strLt_irrefl]

theorem compareRows_total (field : String) (d : Int) (hd : d = 1 ∨ d = -1) (a b : Row) :
    compareRows field d a b ≤ 0 ∨ compareRows field d b a ≤ 0 := by
  by_cases h : field = "annualRevenue"
  · subst h
    rw [compareRows_revenue, compareRows_revenue]
    rcases hd with rfl | rfl <;> omega
  · rcases hd with rfl | rfl
    · rw [compareRows_text_asc _ _ _ h, compareRows_text_asc _ _ _ h]
      exact strLe_total _ _
    · rw [compareRows_text_desc _ _ _ h, compareRows_text_desc _ _ _ h]
      exact (strLe_total _ _).symm

theorem compareRows_trans (field : String) (d : Int) (hd : d = 1 ∨ d = -1) (a b c : Row)
    (hab : compareRows field d a b ≤ 0) (hbc : compareRows field d b c ≤ 0) :
    compareRows field d a c ≤ 0 := by
  by_cases h : field = "annualRevenue"
  · subst h
    rw [compareRows_revenue] at hab hbc ⊢
    rcases hd with rfl | rfl <;> omega
  · rcases hd with rfl | rfl
    · rw [compareRows_text_asc _ _ _ h] at hab hbc ⊢
      exact strLe_trans _ _ _ hab hbc
    · rw [compareRows_text_desc _ _ _ h] at hab hbc ⊢
      exact strLe_trans _ _ _ hbc hab

theorem direction_cases (sortDirection : String) :
    (if sortDirection = "asc" then (1 : Int) else -1) = 1 ∨
      (if sortDirection = "asc" then (1 : Int) else -1) = -1 := by
  by_cases h : sortDirection = "asc" <;> simp [h]

/-! ## Letter case -/

theorem toLower_of_sameLetter (c d : Char) (h : sameLetter c d = true) :
    c.toLower = d.toLower := by
  have hup : ∀ x : Char, 65 ≤ x.toNat ∧ x.toNat ≤ 90 → x.toLower.toLower = x.toLower := by
    intro x hx
    obtain ⟨h1, h2⟩ := hx
    have hc : x = Char.ofNat x.toNat := (Char.ofNat_toNat x).symm
    generalize x.toNat = n at h1 h2 hc
    subst hc
    interval_cases n <;> decide
  simp only [sameLetter, Bool.or_eq_true, Bool.and_eq_true, beq_iff_eq,
    decide_eq_true_eq] at h
  rcases h with (h | ⟨hc, hd⟩) | ⟨hd, hc⟩
  · rw [h]
  · rw [hd, hup c hc]
  · rw [hc, hup d hd]

theorem toLowerCase_of_differOnlyInCase (s t : String) (h : differOnlyInCase s t) :
    toLowerCase s = toLowerCase t := by
  have hlist : ∀ x y : List Char, List.Forall₂ (fun c d => sameLetter c d = true) x y →
      x.map Char.toLower = y.map Char.toLower := by
    intro x y hxy
    induction hxy with
    | nil => rfl
    | cons hcd _ ih => simp only [List.map_cons, toLower_of_sameLetter _ _ hcd, ih]
  exact hlist _ _ h

/-! ## Sorting by a string field -/

/-- C11: sorting by a field other than `annualRevenue` compares the field
values in lower case: in the result the lower-cased values are non-decreasing
for `'asc'` and non-increasing for `'desc'`; two rows whose values differ only
in letter case compare as equal; on the two-row example sorting by `name`
ascending gives Acme, then Zeta. -/
theorem sortData_text_sorted (field : String) (hfield : field ≠ "annualRevenue")
    (data : List Row) :
    (sortData field "asc" data).Pairwise
        (fun a b => strLt (b.lowerValue field) (a.lowerValue field) = false) ∧
      (sortData field "desc" data).Pairwise
        (fun a b => strLt (a.lowerValue field) (b.lowerValue field) = false) ∧
      (∀ (row : Row) s, row.textField field = some s →
        row.lowerValue field = toLowerCase s) ∧
      (∀ (a b : Row) s t d, d = 1 ∨ d = -1 → a.textField field = some s →
        b.textField field = some t → differOnlyInCase s t → compareRows field d a b = 0) ∧
      sortData "name" "asc" [acmeRow, zetaRow] = [acmeRow, zetaRow] ∧
      sortData "name" "asc" [zetaRow, acmeRow] = [acmeRow, zetaRow] := by
  refine ⟨?_, ?_, ?_, ?_, by decide, by decide⟩
  · have h := arraySort_pairwise (compareRows field 1)
      (compareRows_total field 1 (Or.inl rfl)) (compareRows_trans field 1 (Or.inl rfl)) data
    refine List.Pairwise.imp ?_ h
    intro a b hab
    exact (compareRows_text_asc field a b hfield).mp hab
  · have h := arraySort_pairwise (compareRows field (-1))
      (compareRows_total field (-1) (Or.inr rfl)) (compareRows_trans field (-1) (Or.inr rfl))
      data
    refine List.Pairwise.imp ?_ h
    intro a b hab
    exact (compareRows_text_desc field a b hfield).mp hab
  · intro row s hs
    simp [Row.lowerValue, hs]
  · intro a b s t d hd ha hb hst
    rw [compareRows_eq_zero field d hd, if_neg hfield]
    simp only [Row.lowerValue, ha, hb, Option.getD_some]
    exact toLowerCase_of_differOnlyInCase s t hst

/-- C11 on the rows Acme, ACME and Zeta sorted by name. -/
theorem sortData_text_sorted_witness :
    (sortData "name" "desc" [acmeRow, zetaRow, acmeUpperRow]).Pairwise
        (fun a b => strLt (a.lowerValue "name") (b.lowerValue "name") = false) ∧
      sortData "name" "desc" [acmeRow, zetaRow, acmeUpperRow]
        = [zetaRow, acmeRow, acmeUpperRow] ∧
      compareRows "name" 1 acmeRow acmeUpperRow = 0 :=
  ⟨(sortData_text_sorted "name" (by decide) [acmeRow, zetaRow, acmeUpperRow]).2.1,
    by decide, by decide⟩

/-! ## Stability and idempotence -/

/-- The elements a sort treats as equal to each other stay in the order they
came in. -/
theorem arraySort_filter_stable {α : Type} (cmp : α → α → Int) (p : α → Bool) (l : List α)
    (hp : ∀ a b, p a = true → p b = true → cmp a b ≤ 0) :
    (arraySort cmp l).filter p = l.filter p := by
  have hpair : (l.filter p).Pairwise (fun a b => cmp a b ≤ 0) := by
    refine List.Pairwise.imp_of_mem ?_ (List.pairwise_of_forall (R := fun _ _ => True)
      (fun _ _ => trivial))
    intro a b ha hb _
    exact hp a b (List.mem_filter.mp ha).2 (List.mem_filter.mp hb).2
  have hsub : List.Sublist (l.filter p) (arraySort cmp l) :=
    List.sublist_insertionSort hpair (List.filter_sublist l)
  have hsub' : List.Sublist (l.filter p) ((arraySort cmp l).filter p) := by
    have := hsub.filter p
    rwa [List.filter_filter, show (fun a => (p a && p a)) = p from by funext a; simp] at this
  have hlen : (l.filter p).length = ((arraySort cmp l).filter p).length :=
    (((arraySort_perm cmp l).filter p).length_eq).symm
  exact (hsub'.eq_of_length hlen).symm

/-- C12: `sortData` is stable.  For every field and direction, the rows the
comparator treats as equal to a given row come out in the order they came in,
and a row that stands before another one it compares equal to stays before
it.  The comparator treats two rows as equal exactly when their revenues are
equal (field `annualRevenue`, a missing one counted as 0), or when their
field values are equal after lower-casing, a `null` counted as `''`. -/
theorem sortData_stable (sortField sortDirection : String) (data : List Row) :
    (∀ pivot, (sortData sortField sortDirection data).filter
          (fun x => decide (compareRows sortField
            (if sortDirection = "asc" then 1 else -1) pivot x = 0)) =
        data.filter (fun x => decide (compareRows sortField
            (if sortDirection = "asc" then 1 else -1) pivot x = 0))) ∧
      (∀ a b, compareRows sortField (if sortDirection = "asc" then 1 else -1) a b = 0 →
        List.Sublist [a, b] data →
        List.Sublist [a, b] (sortData sortField sortDirection data)) ∧
      (∀ a b, compareRows sortField (if sortDirection = "asc" then 1 else -1) a b = 0 ↔
        if sortField = "annualRevenue" then a.revenue = b.revenue
        else a.lowerValue sortField = b.lowerValue sortField) := by
  have hd := direction_cases sortDirection
  refine ⟨?_, ?_, fun a b => compareRows_eq_zero sortField _ hd a b⟩
  · intro pivot
    apply arraySort_filter_stable
    intro a b ha hb
    simp only [decide_eq_true_eq] at ha hb
    rw [compareRows_eq_zero sortField _ hd] at ha hb
    have hab : compareRows sortField (if sortDirection = "asc" then 1 else -1) a b = 0 := by
      rw [compareRows_eq_zero sortField _ hd]
      by_cases hf : sortField = "annualRevenue"
      · simp only [hf, if_true] at ha hb ⊢
        omega
      · simp only [hf, if_false] at ha hb ⊢
        rw [← ha, ← hb]
    omega
  · intro a b hab hsub
    exact List.pair_sublist_insertionSort (r := fun x y => compareRows sortField
      (if sortDirection = "asc" then 1 else -1) x y ≤ 0) (by show _ ≤ 0; omega) hsub

/-- C13: sorting is idempotent: for every field and direction, `sortData`
applied to its own output returns that output. -/
theorem sortData_idempotent (sortField sortDirection : String) (data : List Row) :
    sortData sortField sortDirection (sortData sortField sortDirection data)
        = sortData sortField sortDirection data ∧
      sortData "annualRevenue" "desc" (sortData "annualRevenue" "desc" data)
        = sortData "annualRevenue" "desc" data := by
  have h : ∀ f d : String, sortData f d (sortData f d data) = sortData f d data := by
    intro f d
    have hd := direction_cases d
    have hs := arraySort_pairwise (compareRows f (if d = "asc" then 1 else -1))
      (compareRows_total f _ hd) (compareRows_trans f _ hd) data
    exact List.Sorted.insertionSort_eq hs
  exact ⟨h _ _, h _ _⟩

/-! ## Rows without a value -/

/-- C14, as the claim states it, fails for the field `annualRevenue`: sorted
ascending, a row without revenue comes after a row with a negative revenue,
and it stays after a row with revenue 0 that came in before it. -/
theorem sortData_null_revenue_not_first :
    sortData "annualRevenue" "asc" [lossRow, blankRow] = [lossRow, blankRow] ∧
      sortData "annualRevenue" "asc" [blankRow, lossRow] = [lossRow, blankRow] ∧
      sortData "annualRevenue" "asc" [zeroRow, blankRow] = [zeroRow, blankRow] ∧
      blankRow.isNullAt "annualRevenue" = true ∧
      lossRow.isPresentAt "annualRevenue" = true ∧
      zeroRow.isPresentAt "annualRevenue" = true ∧
      ¬ (sortData "annualRevenue" "asc" [blankRow, lossRow]).Pairwise
        (fun x y => ¬ (x.isPresentAt "annualRevenue" = true ∧
          y.isNullAt "annualRevenue" = true)) := by
  refine ⟨by decide, by decide, by decide, by decide, by decide, by decide, ?_⟩
  have h : sortData "annualRevenue" "asc" [blankRow, lossRow] = [lossRow, blankRow] := by
    decide
  rw [h]
  intro hp
  have := List.rel_of_pairwise_cons hp (List.mem_singleton.mpr rfl)
  exact this ⟨by decide, by decide⟩

/-- C14, amended: sorted ascending by a field other than `annualRevenue`, a
`null` or absent value counts as the empty string and every row without a
value comes before every row whose value is present and non-empty; sorted
ascending by `annualRevenue`, a missing revenue counts as 0 and every row
without revenue comes before every row with a positive revenue. -/
theorem sortData_null_placement (field : String) (data : List Row) :
    (field ≠ "annualRevenue" →
        (sortData field "asc" data).Pairwise
          (fun x y => ¬ (x.isPresentAt field = true ∧ y.isNullAt field = true))) ∧
      (sortData "annualRevenue" "asc" data).Pairwise
        (fun x y => ¬ (0 < x.revenue ∧ y.isNullAt "annualRevenue" = true)) ∧
      (∀ row : Row, field ≠ "annualRevenue" → row.isNullAt field = true →
        row.lowerValue field = toLowerCase "") ∧
      (∀ row : Row, row.isNullAt "annualRevenue" = true → row.revenue = 0) := by
  have hrev : ∀ row : Row, row.isNullAt "annualRevenue" = true → row.revenue = 0 := by
    intro row h
    simp only [Row.isNullAt, if_true] at h
    unfold Row.revenue
    cases hr : row.annualRevenue with
    | num n => rw [hr] at h; simp [Field.isNumber] at h
    | null => rfl
    | undefined => rfl
  refine ⟨?_, ?_, ?_, hrev⟩
  · intro hfield
    have h := arraySort_pairwise (compareRows field 1)
      (compareRows_total field 1 (Or.inl rfl)) (compareRows_trans field 1 (Or.inl rfl)) data
    refine List.Pairwise.imp ?_ h
    intro x y hxy hcontra
    obtain ⟨hx, hy⟩ := hcontra
    have hle := (compareRows_text_asc field x y hfield).mp hxy
    simp only [Row.isPresentAt, Row.isNullAt, hfield, if_false] at hx hy
    cases hxs : x.textField field with
    | none => rw [hxs] at hx; exact absurd hx (by decide)
    | some sx =>
      cases hys : y.textField field with
      | some sy => rw [hys] at hy; simp at hy
      | none =>
        rw [hxs] at hx
        have hne : sx.data ≠ [] := by
          intro he
          have : sx = "" := string_eq_of_data_eq he
          simp [this] at hx
        simp only [Row.lowerValue, hxs, hys, Option.getD_some, Option.getD_none, toLowerCase]
          at hle
        cases hd : sx.data with
        | nil => exact hne hd
        | cons c cs =>
          rw [hd] at hle
          simp [strLt] at hle
  · have h := arraySort_pairwise (compareRows "annualRevenue" 1)
      (compareRows_total _ 1 (Or.inl rfl)) (compareRows_trans _ 1 (Or.inl rfl)) data
    refine List.Pairwise.imp ?_ h
    intro x y hxy hcontra
    obtain ⟨hx, hy⟩ := hcontra
    rw [compareRows_revenue] at hxy
    have := hrev y hy
    omega
  · intro row hfield hnull
    simp only [Row.isNullAt, hfield, if_false, Option.isNone_iff_eq_none] at hnull
    simp [Row.lowerValue, hnull]

/-- C14 amended, on rows with and without a name. -/
theorem sortData_null_placement_witness :
    sortData "name" "asc" [acmeRow, blankRow, zetaRow] = [blankRow, acmeRow, zetaRow] ∧
      (sortData "name" "asc" [acmeRow, blankRow, zetaRow]).Pairwise
        (fun x y => ¬ (x.isPresentAt "name" = true ∧ y.isNullAt "name" = true)) :=
  ⟨by decide, (sortData_null_placement "name" [acmeRow, blankRow, zetaRow]).1 (by decide)⟩

/-! ## The sort state -/

theorem afterClicks_concat (fields : List String) (field : String) :
    afterClicks (fields ++ [field]) = handleSort field (afterClicks fields) := by
  simp [afterClicks, List.foldl_append]

theorem handleSort_direction (field : String) (s : SortState) :
    (handleSort field s).sortDirection = "asc" ∨ (handleSort field s).sortDirection = "desc" := by
  unfold handleSort
  by_cases h : s.sortField = field
  · by_cases hd : s.sortDirection = "asc" <;> simp [h, hd]
  · simp [h]

theorem afterClicks_direction (fields : List String) :
    (afterClicks fields).sortDirection = "asc" ∨ (afterClicks fields).sortDirection = "desc" := by
  induction fields using List.reverseRecOn with
  | nil => exact Or.inl rfl
  | append_singleton init field _ =>
    rw [afterClicks_concat]
    exact handleSort_direction _ _

/-- C22: the sort state starts at `('name', 'asc')`; `handleSort(f)` keeps the
field and flips the direction between `'asc'` and `'desc'` when `f` is the
current sort field, and makes the state `(f, 'asc')` otherwise; so after any
sequence of clicks the direction is `'asc'` or `'desc'`, and two more clicks
on the current sort field bring the state back. -/
theorem handleSort_steps (fields : List String) (field : String) (s : SortState) :
    SortState.initial = { sortField := "name", sortDirection := "asc" } ∧
      afterClicks [] = SortState.initial ∧
      afterClicks (fields ++ [field]) = handleSort field (afterClicks fields) ∧
      (field = s.sortField → s.sortDirection = "asc" →
        handleSort field s = { sortField := s.sortField, sortDirection := "desc" }) ∧
      (field = s.sortField → s.sortDirection = "desc" →
        handleSort field s = { sortField := s.sortField, sortDirection := "asc" }) ∧
      (field ≠ s.sortField →
        handleSort field s = { sortField := field, sortDirection := "asc" }) ∧
      ((afterClicks fields).sortDirection = "asc" ∨
        (afterClicks fields).sortDirection = "desc") ∧
      handleSort (afterClicks fields).sortField
          (handleSort (afterClicks fields).sortField (afterClicks fields))
        = afterClicks fields := by
  refine ⟨rfl, rfl, afterClicks_concat _ _, ?_, ?_, ?_, afterClicks_direction _, ?_⟩
  · intro hf hd
    simp [handleSort, hf, hd]
  · intro hf hd
    simp [handleSort, hf, hd]
  · intro hf
    have : ¬ s.sortField = field := fun e => hf e.symm
    simp [handleSort, this]
  · have hd := afterClicks_direction fields
    generalize afterClicks fields = st at hd
    obtain ⟨f, d⟩ := st
    simp only at hd
    rcases hd with rfl | rfl <;> simp [handleSort]

/-- C22 on the clicks name, status, status. -/
theorem handleSort_steps_witness :
    afterClicks ["name"] = { sortField := "name", sortDirection := "desc" } ∧
      afterClicks ["name", "status"] = { sortField := "status", sortDirection := "asc" } ∧
      afterClicks ["name", "status", "status"]
        = { sortField := "status", sortDirection := "desc" } ∧
      handleSort "status" (handleSort "status" (afterClicks ["name", "status", "status"]))
        = afterClicks ["name", "status", "status"] :=
  ⟨by decide, by decide, by decide,
    (handleSort_steps ["name", "status", "status"] "status" SortState.initial).2.2.2.2.2.2.2⟩

/-! ## The revenues of the status summary -/

theorem revenueForStatus_eq (c : Container) (status : String) :
    calculateRevenueForStatus c status =
      .int ((((loadedAccounts c).getD []).filter
        (fun acc => decide (acc.status = some status))).map
          (fun acc => acc.annualRevenue.value)).sum := by
  unfold calculateRevenueForStatus loadedAccounts
  obtain ⟨fs, dd, il, er, ct, sel, cdm, aso⟩ := c
  cases dd with
  | none => rfl
  | some d =>
    obtain ⟨tu, cm, kpi, fa⟩ := d
    cases fa with
    | none => rfl
    | some accounts =>
      simp only [Option.getD_some]
      rw [foldl_revenue, zero_add]
      congr 3
      apply List.filter_congr
      intro acc _
      by_cases h : acc.status = some status <;> simp [h]

theorem int_add_int (a b : Int) : (JsNum.int a).add (JsNum.int b) = JsNum.int (a + b) := rfl

theorem orZero_int (n : Int) : (JsNum.int n).orZero = JsNum.int n := rfl

theorem foldl_summary (items : List StatusSummary) (g : StatusSummary → Int) (a : Int)
    (h : ∀ item ∈ items, item.revenue = JsNum.int (g item)) :
    items.foldl (fun (sum : JsNum) (item : StatusSummary) => sum.add item.revenue.orZero)
        (JsNum.int a) = JsNum.int (a + (items.map g).sum) := by
  induction items generalizing a with
  | nil => simp
  | cons item rest ih =>
    rw [List.foldl_cons, h item (List.mem_cons_self _ _), orZero_int, int_add_int,
      ih _ (fun x hx => h x (List.mem_cons_of_mem _ hx)), List.map_cons, List.sum_cons,
      add_assoc]

theorem sum_ite_absent (ks : List String) (k0 : String) (x : Int) (h : k0 ∉ ks) :
    (ks.map (fun k => if k0 = k then x else 0)).sum = 0 := by
  induction ks with
  | nil => rfl
  | cons k rest ih =>
    simp only [List.mem_cons, not_or] at h
    simp [h.1, ih h.2]

theorem sum_ite_single (ks : List String) (k0 : String) (x : Int) (hnd : ks.Nodup)
    (hmem : k0 ∈ ks) : (ks.map (fun k => if k0 = k then x else 0)).sum = x := by
  induction ks with
  | nil => simp at hmem
  | cons k rest ih =>
    rw [List.nodup_cons] at hnd
    by_cases hk : k0 = k
    · subst hk
      simp [sum_ite_absent rest k0 x hnd.1]
    · have hm : k0 ∈ rest := by
        rcases List.mem_cons.mp hmem with h | h
        · exact absurd h hk
        · exact h
      simp [hk, ih hnd.2 hm]

/-- Statuses that are pairwise distinct and cover the accounts split the sum
over the accounts into the sums per status. -/
theorem partition_sum (ks : List String) (accounts : List AccountRecord) (v : AccountRecord → Int)
    (hnd : ks.Nodup) (hcover : ∀ acc ∈ accounts, ∃ k ∈ ks, acc.status = some k) :
    (ks.map (fun k => ((accounts.filter
        (fun acc => decide (acc.status = some k))).map v).sum)).sum = (accounts.map v).sum := by
  induction accounts with
  | nil => simp
  | cons acc rest ih =>
    obtain ⟨k0, hk0, hs⟩ := hcover acc (List.mem_cons_self _ _)
    have hrest := ih (fun a ha => hcover a (List.mem_cons_of_mem _ ha))
    have hsplit : ∀ k, (((acc :: rest).filter
        (fun a => decide (a.status = some k))).map v).sum =
        (if k0 = k then v acc else 0) +
          ((rest.filter (fun a => decide (a.status = some k))).map v).sum := by
      intro k
      by_cases hk : k0 = k
      · subst hk
        simp [List.filter_cons, hs]
      · have hne : ¬ acc.status = some k := by
          rw [hs]
          intro e
          exact hk (Option.some.inj e)
        simp [List.filter_cons, hne, hk]
    simp only [hsplit]
    rw [List.sum_map_add, hrest, sum_ite_single ks k0 (v acc) hnd hk0, List.map_cons,
      List.sum_cons]

theorem statusSummaryData_eq_map (c : Container) :
    statusSummaryData c = (targetUniverseData c).map (fun item : StatusOption =>
      ({ status := item.status, count := item.count, color := item.color,
         revenue := calculateRevenueForStatus c item.status } : StatusSummary)) := by
  unfold statusSummaryData
  cases h : targetUniverseData c with
  | nil => rfl
  | cons x rest => rfl

theorem options_with_status (options : List StatusOption) (k0 : String)
    (hnd : (options.map (fun item => item.status)).Nodup)
    (hmem : k0 ∈ options.map (fun item => item.status)) :
    (options.filter (fun item => decide (k0 = item.status))).length = 1 := by
  induction options with
  | nil => simp at hmem
  | cons item rest ih =>
    rw [List.map_cons, List.nodup_cons] at hnd
    by_cases hk : k0 = item.status
    · have hnone : rest.filter (fun item => decide (k0 = item.status)) = [] := by
        rw [List.filter_eq_nil_iff]
        intro x hx hx'
        simp only [decide_eq_true_eq] at hx'
        apply hnd.1
        rw [← hk, hx']
        exact List.mem_map_of_mem (fun item : StatusOption => item.status) hx
      subst hk
      simp [List.filter_cons, hnone]
    · have hm : k0 ∈ rest.map (fun item => item.status) := by
        rw [List.map_cons] at hmem
        rcases List.mem_cons.mp hmem with h | h
        · exact absurd h hk
        · exact h
      simp [List.filter_cons, hk, ih hnd.2 hm]

/-- C21: when the status values of the option list `targetUniverseData` are
pairwise distinct and every loaded account has one of them as its status, the
revenues of `statusSummaryData`, added up as the status table adds them, give
the sum of `annualRevenue` (a missing one counted as 0) over all loaded
accounts, and every account is counted under exactly one status. -/
theorem statusSummaryData_partition (c : Container)
    (hdistinct : ((targetUniverseData c).map (fun item => item.status)).Nodup)
    (hcover : ∀ acc ∈ (loadedAccounts c).getD [],
      ∃ item ∈ targetUniverseData c, acc.status = some item.status) :
    revenueTotal (statusSummaryData c) =
        .int (((loadedAccounts c).getD []).map (fun acc => acc.annualRevenue.value)).sum ∧
      (∀ acc ∈ (loadedAccounts c).getD [],
        ((targetUniverseData c).filter
          (fun item => decide (acc.status = some item.status))).length = 1) ∧
      (∀ intlFormat, totalRevenue intlFormat (some (statusSummaryData c)) =
        formatCurrency intlFormat (some (.int
          (((loadedAccounts c).getD []).map (fun acc => acc.annualRevenue.value)).sum))) := by
  have hmain : revenueTotal (statusSummaryData c) =
      .int (((loadedAccounts c).getD []).map (fun acc => acc.annualRevenue.value)).sum := by
    unfold revenueTotal
    rw [foldl_summary (statusSummaryData c)
      (fun item => ((((loadedAccounts c).getD []).filter
        (fun acc => decide (acc.status = some item.status))).map
          (fun acc => acc.annualRevenue.value)).sum) 0]
    · rw [zero_add, statusSummaryData_eq_map, List.map_map]
      have hp := partition_sum ((targetUniverseData c).map (fun item => item.status))
        ((loadedAccounts c).getD []) (fun acc => acc.annualRevenue.value) hdistinct
        (by
          intro acc hacc
          obtain ⟨item, hitem, hs⟩ := hcover acc hacc
          exact ⟨item.status, List.mem_map_of_mem _ hitem, hs⟩)
      rw [List.map_map] at hp
      rw [← hp]
      rfl
    · intro item hitem
      rw [statusSummaryData_eq_map, List.mem_map] at hitem
      obtain ⟨o, _, rfl⟩ := hitem
      exact revenueForStatus_eq c o.status
  refine ⟨hmain, ?_, ?_⟩
  · intro acc hacc
    obtain ⟨item, hitem, hs⟩ := hcover acc hacc
    have h1 := options_with_status (targetUniverseData c) item.status hdistinct
      (List.mem_map_of_mem _ hitem)
    rw [← h1]
    congr 1
    apply List.filter_congr
    intro x _
    rw [hs]
    by_cases hx : item.status = x.status <;> simp [hx]
  · intro intlFormat
    simp only [totalRevenue, hmain]

/-- C21 on the container with two customers and one other account. -/
theorem statusSummaryData_partition_witness :
    revenueTotal (statusSummaryData loadedContainer) = .int 500007 ∧
      (statusSummaryData loadedContainer).map (fun item => (item.status, item.revenue))
        = [("Customer", .int 500000), ("Dead", .int 7)] :=
  ⟨(statusSummaryData_partition loadedContainer (by decide) (by decide)).1, by decide⟩

end CommandCenter
